import Mathlib

/-!
# Verification of the `mq` message-queue service

A shallow embedding of `src/mq.py`, a Flask + sqlite message queue.

* JSON payloads (`flask.request.json` values) are modelled by the mutual
  inductive `Json`/`JItems`/`JFields`; Python's `json.dumps` (default options:
  `ensure_ascii=True`, separators `", "` and `": "`) is modelled by
  `Json.dumps`, and `json.loads` by the decoder `loads` (modelled from the
  standard library's decoder, adequate on every text this program ever stores,
  namely the output of `dumps`).  JSON numbers are restricted to integers:
  floating-point payloads are outside the embedding.
* The sqlite database is modelled by `Store`: the `queues` table is a list of
  `QueueRow` and the `messages` table a list of `Msg`, both kept in insertion
  order.  sqlite assigns a fresh `integer primary key` (no AUTOINCREMENT) as
  one larger than the largest rowid currently in the table, `1` when the table
  is empty; `nextMsgId`/`nextQueueId` model this.
* Each DAO method of `QueuesDAO` becomes a Lean function on `Store`; the
  `ValueError` raised by `check_queue` becomes the typed failure
  `DAOError.noSuchQueue`.
-/

/-! ## JSON values -/

mutual
inductive Json where
  | null : Json
  | bool (b : Bool) : Json
  | num (n : Int) : Json
  | str (s : List Char) : Json
  | arr (items : JItems) : Json
  | obj (fields : JFields) : Json
  deriving DecidableEq
inductive JItems where
  | nil : JItems
  | cons (hd : Json) (tl : JItems) : JItems
  deriving DecidableEq
inductive JFields where
  | nil : JFields
  | cons (key : List Char) (val : Json) (tl : JFields) : JFields
  deriving DecidableEq
end

/-! ## Decimal digits (Python `repr` of an `int`) -/

/-- Digits of `n`, most significant first, accumulated into `acc`;
    `fuel` bounds the recursion and any `fuel > n` is enough. -/
def digitsCore : Nat → Nat → List Char → List Char
  | 0, _, acc => acc
  | fuel + 1, n, acc =>
    if n < 10 then Nat.digitChar n :: acc
    else digitsCore fuel (n / 10) (Nat.digitChar (n % 10) :: acc)

/-- The decimal representation of a natural number, as Python prints it. -/
def natDigits (n : Nat) : List Char := digitsCore (n + 1) n []

/-! ## String escaping (Python `json.encoder`, `ensure_ascii=True`) -/

/-- Four lowercase hex digits of `n % 0x10000`, as `"\u%04x" % n`. -/
def hexDigits4 (n : Nat) : List Char :=
  [Nat.digitChar (n / 4096 % 16), Nat.digitChar (n / 256 % 16),
   Nat.digitChar (n / 16 % 16), Nat.digitChar (n % 16)]

/-- How `json.dumps` writes one character of a string: the two-character
    escapes of `ESCAPE_DCT`, `\u00xx` for other control characters,
    `\uxxxx` (with a surrogate pair above `0xffff`) for non-ASCII, and the
    character itself otherwise. -/
def escapeChar (c : Char) : List Char :=
  if c = '"' then ['\\', '"']
  else if c = '\\' then ['\\', '\\']
  else if c = '\x08' then ['\\', 'b']
  else if c = '\x0c' then ['\\', 'f']
  else if c = '\n' then ['\\', 'n']
  else if c = '\r' then ['\\', 'r']
  else if c = '\t' then ['\\', 't']
  else if c.toNat < 0x20 ∨ 0x7e < c.toNat then
    if c.toNat < 0x10000 then '\\' :: 'u' :: hexDigits4 c.toNat
    else
      ('\\' :: 'u' :: hexDigits4 (0xd800 + (c.toNat - 0x10000) / 1024)) ++
      ('\\' :: 'u' :: hexDigits4 (0xdc00 + (c.toNat - 0x10000) % 1024))
  else [c]

/-- The escaped body of a JSON string literal. -/
def escString : List Char → List Char
  | [] => []
  | c :: cs => escapeChar c ++ escString cs

/-! ## `json.dumps` -/

mutual
/-- Python `json.dumps` with its default options, restricted to
    integer-numbered JSON values. -/
def Json.dumps : Json → List Char
  | .null => 'n' :: ['u', 'l', 'l']
  | .bool true => 't' :: ['r', 'u', 'e']
  | .bool false => 'f' :: ['a', 'l', 's', 'e']
  | .num n => if n < 0 then '-' :: natDigits n.natAbs else natDigits n.toNat
  | .str s => '"' :: escString s ++ ['"']
  | .arr .nil => ['[', ']']
  | .arr (.cons h t) => '[' :: JItems.dumps (.cons h t) ++ [']']
  | .obj .nil => ['{', '}']
  | .obj (.cons k v t) => '{' :: JFields.dumps (.cons k v t) ++ ['}']
/-- The comma-separated items of a dumped array (separator `", "`). -/
def JItems.dumps : JItems → List Char
  | .nil => []
  | .cons h .nil => h.dumps
  | .cons h (.cons h2 t2) => h.dumps ++ ',' :: ' ' :: JItems.dumps (.cons h2 t2)
/-- The comma-separated `"key": value` fields of a dumped object. -/
def JFields.dumps : JFields → List Char
  | .nil => []
  | .cons k v .nil => '"' :: escString k ++ '"' :: ':' :: ' ' :: v.dumps
  | .cons k v (.cons k2 v2 t2) =>
      '"' :: escString k ++ '"' :: ':' :: ' ' :: v.dumps ++
        ',' :: ' ' :: JFields.dumps (.cons k2 v2 t2)
end

/-! ## `json.loads`

Modelled from the spec: the repository calls the Python standard library's
`json.loads`, which is not part of `src/`.  The decoder below accepts the
canonical texts produced by `Json.dumps` — the only strings this program ever
stores and re-reads — and reconstructs the structured value. -/

/-- Value of one hex digit. -/
def hexVal (c : Char) : Option Nat :=
  if '0' ≤ c ∧ c ≤ '9' then some (c.toNat - 48)
  else if 'a' ≤ c ∧ c ≤ 'f' then some (c.toNat - 87)
  else if 'A' ≤ c ∧ c ≤ 'F' then some (c.toNat - 55)
  else none

/-- Read four hex digits. -/
def parseHex4 : List Char → Option (Nat × List Char)
  | c1 :: c2 :: c3 :: c4 :: r =>
    match hexVal c1, hexVal c2, hexVal c3, hexVal c4 with
    | some a, some b, some c, some d => some (a * 4096 + b * 256 + c * 16 + d, r)
    | _, _, _, _ => none
  | _ => none

/-- Continuation once the second `\uXXXX` of a surrogate pair has been read:
    check the low-surrogate range and combine the pair into one scalar. -/
def parseUEscapePair (u : Nat) : Option (Nat × List Char) → Option (Char × List Char)
  | some (u2, r3) =>
    if 0xdc00 ≤ u2 ∧ u2 ≤ 0xdfff then
      some (Char.ofNat (0x10000 + (u - 0xd800) * 1024 + (u2 - 0xdc00)), r3)
    else none
  | none => none

/-- After a high surrogate `u`, a second `\uXXXX` must follow. -/
def parseUEscapeLow (u : Nat) : List Char → Option (Char × List Char)
  | '\\' :: 'u' :: r2 => parseUEscapePair u (parseHex4 r2)
  | _ => none

/-- Continuation once the first `\uXXXX` has been read: a high surrogate
    starts a pair, a lone low surrogate is rejected, anything else is the
    scalar itself. -/
def parseUEscapeCont (u : Nat) (r1 : List Char) : Option (Char × List Char) :=
  if 0xd800 ≤ u ∧ u ≤ 0xdbff then parseUEscapeLow u r1
  else if 0xdc00 ≤ u ∧ u ≤ 0xdfff then none
  else some (Char.ofNat u, r1)

/-- Decode a `\uXXXX` escape, joining a surrogate pair into one scalar. -/
def parseUEscape (r : List Char) : Option (Char × List Char) :=
  match parseHex4 r with
  | none => none
  | some (u, r1) => parseUEscapeCont u r1

/-- Decode the character after a backslash. -/
def parseEscapeChar : List Char → Option (Char × List Char)
  | [] => none
  | c :: r =>
    if c = '"' then some ('"', r)
    else if c = '\\' then some ('\\', r)
    else if c = '/' then some ('/', r)
    else if c = 'b' then some ('\x08', r)
    else if c = 'f' then some ('\x0c', r)
    else if c = 'n' then some ('\n', r)
    else if c = 'r' then some ('\r', r)
    else if c = 't' then some ('\t', r)
    else if c = 'u' then parseUEscape r
    else none

/-- Read a string body up to its closing quote; strict mode rejects
    raw control characters. -/
def parseStrBody : Nat → List Char → Option (List Char × List Char)
  | 0, _ => none
  | _ + 1, [] => none
  | fuel + 1, c :: r =>
    if c = '"' then some ([], r)
    else if c = '\\' then
      match parseEscapeChar r with
      | none => none
      | some (e, r1) =>
        match parseStrBody fuel r1 with
        | none => none
        | some (s1, r2) => some (e :: s1, r2)
    else if c.toNat < 0x20 then none
    else
      match parseStrBody fuel r with
      | none => none
      | some (s1, r2) => some (c :: s1, r2)

/-- ASCII decimal digit test (`'0'` to `'9'`). -/
def isDig (c : Char) : Bool := 48 ≤ c.toNat && c.toNat ≤ 57

/-- One step of decimal accumulation. -/
def digitStep (a : Nat) (c : Char) : Nat := a * 10 + (c.toNat - 48)

/-- Consume leading decimal digits into the accumulator. -/
def parseDigitsAux : List Char → Nat → Nat × List Char
  | [], acc => (acc, [])
  | c :: r, acc =>
    if isDig c then parseDigitsAux r (digitStep acc c) else (acc, c :: r)

/-- Read an (integer) JSON number. -/
def parseNumber : List Char → Option (Int × List Char)
  | [] => none
  | c :: r =>
    if c = '-' then
      match r with
      | [] => none
      | c2 :: r2 =>
        if isDig c2 then
          match parseDigitsAux r2 (c2.toNat - 48) with
          | (m, r3) => some (-(m : Int), r3)
        else none
    else if isDig c then
      match parseDigitsAux r (c.toNat - 48) with
      | (m, r3) => some ((m : Int), r3)
    else none

/-- What the decoder is currently reading: a value, the items of an array
    after its `[`, or the fields of an object after its `{`. -/
inductive PMode where
  | val : PMode
  | items : PMode
  | fields : PMode
  deriving DecidableEq

/-- Result of one decoding activation. -/
inductive PRes where
  | val (v : Json) (r : List Char) : PRes
  | items (vs : JItems) (r : List Char) : PRes
  | fields (kvs : JFields) (r : List Char) : PRes
  deriving DecidableEq

/-- Wrap a decoded string literal as a value. -/
def strCont : Option (List Char × List Char) → Option PRes
  | some (s1, r1) => some (.val (.str s1) r1)
  | none => none

/-- Wrap a decoded number as a value. -/
def numCont : Option (Int × List Char) → Option PRes
  | some (n, r1) => some (.val (.num n) r1)
  | none => none

/-- Wrap decoded array items as a value. -/
def arrCont : Option PRes → Option PRes
  | some (.items vs r1) => some (.val (.arr vs) r1)
  | _ => none

/-- Wrap decoded object fields as a value. -/
def objCont : Option PRes → Option PRes
  | some (.fields kvs r1) => some (.val (.obj kvs) r1)
  | _ => none

/-- Prepend an item to a decoded run of further items. -/
def itemsCont (v : Json) : Option PRes → Option PRes
  | some (.items vs r2) => some (.items (.cons v vs) r2)
  | _ => none

/-- Prepend a field to a decoded run of further fields. -/
def fieldsCont (k : List Char) (v : Json) : Option PRes → Option PRes
  | some (.fields kvs r5) => some (.fields (.cons k v kvs) r5)
  | _ => none

/-- Recursive-descent JSON decoder; `fuel` bounds the nesting. -/
def parseAux : Nat → PMode → List Char → Option PRes
  | 0, _, _ => none
  | fuel + 1, .val, s =>
    match s with
    | [] => none
    | c :: r =>
      if c = 'n' then
        match r with
        | 'u' :: 'l' :: 'l' :: r1 => some (.val .null r1)
        | _ => none
      else if c = 't' then
        match r with
        | 'r' :: 'u' :: 'e' :: r1 => some (.val (.bool true) r1)
        | _ => none
      else if c = 'f' then
        match r with
        | 'a' :: 'l' :: 's' :: 'e' :: r1 => some (.val (.bool false) r1)
        | _ => none
      else if c = '"' then strCont (parseStrBody (r.length + 1) r)
      else if c = '[' then
        match r with
        | [] => none
        | c2 :: r2 =>
          if c2 = ']' then some (.val (.arr .nil) r2)
          else arrCont (parseAux fuel .items (c2 :: r2))
      else if c = '{' then
        match r with
        | [] => none
        | c2 :: r2 =>
          if c2 = '}' then some (.val (.obj .nil) r2)
          else objCont (parseAux fuel .fields (c2 :: r2))
      else numCont (parseNumber (c :: r))
  | fuel + 1, .items, s =>
    match parseAux fuel .val s with
    | some (.val v r) =>
      match r with
      | [] => none
      | c :: r1 =>
        if c = ']' then some (.items (.cons v .nil) r1)
        else if c = ',' then
          match r1 with
          | [] => none
          | c2 :: r2 =>
            if c2 = ' ' then itemsCont v (parseAux fuel .items r2) else none
        else none
    | _ => none
  | fuel + 1, .fields, s =>
    match s with
    | [] => none
    | c :: r =>
      if c = '"' then
        match parseStrBody (r.length + 1) r with
        | none => none
        | some (k, r1) =>
          match r1 with
          | [] => none
          | c1 :: r2 =>
            if c1 = ':' then
              match r2 with
              | [] => none
              | c2 :: r3 =>
                if c2 = ' ' then
                  match parseAux fuel .val r3 with
                  | some (.val v r4) =>
                    match r4 with
                    | [] => none
                    | c3 :: r5 =>
                      if c3 = '}' then some (.fields (.cons k v .nil) r5)
                      else if c3 = ',' then
                        match r5 with
                        | [] => none
                        | c4 :: r6 =>
                          if c4 = ' ' then fieldsCont k v (parseAux fuel .fields r6)
                          else none
                      else none
                  | _ => none
                else none
            else none
      else none

/-- `json.loads`: decode a complete text. -/
def loads (s : List Char) : Option Json :=
  match parseAux (s.length + 1) .val s with
  | some (.val v []) => some v
  | _ => none

/-- A suffix that cannot extend a decimal literal: empty or headed by a
    non-digit. -/
def numStop : List Char → Bool
  | [] => true
  | c :: _ => !(isDig c)

/-! ## Fuel measure for the decoder -/

mutual
/-- Decoder fuel sufficient for one value. -/
def Json.fuelSize : Json → Nat
  | .null => 1
  | .bool _ => 1
  | .num _ => 1
  | .str _ => 1
  | .arr .nil => 1
  | .arr (.cons h t) => 1 + JItems.fuelSize (.cons h t)
  | .obj .nil => 1
  | .obj (.cons k v t) => 1 + JFields.fuelSize (.cons k v t)
/-- Decoder fuel sufficient for a run of array items. -/
def JItems.fuelSize : JItems → Nat
  | .nil => 0
  | .cons h t => 1 + Json.fuelSize h + JItems.fuelSize t
/-- Decoder fuel sufficient for a run of object fields. -/
def JFields.fuelSize : JFields → Nat
  | .nil => 0
  | .cons _ v t => 1 + Json.fuelSize v + JFields.fuelSize t
end

/-! ## Round trip of the serialization: character-level lemmas -/

theorem ne_of_toNat_ne {c d : Char} (h : c.toNat ≠ d.toNat) : c ≠ d :=
  fun e => h (by rw [e])

theorem isDig_spec {c : Char} (h : isDig c = true) : 48 ≤ c.toNat ∧ c.toNat ≤ 57 := by
  simpa [isDig] using h

theorem char_valid (c : Char) : c.toNat < 0xd800 ∨ (0xdfff < c.toNat ∧ c.toNat < 0x110000) :=
  c.valid

theorem charOfNat_toNat (c : Char) : Char.ofNat c.toNat = c := by
  have h : c.toNat.isValidChar := c.valid
  unfold Char.ofNat
  rw [dif_pos h]
  apply Char.eq_of_val_eq
  apply UInt32.eq_of_toBitVec_eq
  apply BitVec.eq_of_toNat_eq
  simp [Char.ofNatAux, Char.toNat, UInt32.toNat]

theorem digitChar_isDig {k : Nat} (h : k < 10) : isDig (Nat.digitChar k) = true := by
  interval_cases k <;> decide

theorem digitChar_toNat {k : Nat} (h : k < 10) : (Nat.digitChar k).toNat = 48 + k := by
  interval_cases k <;> decide

theorem hexVal_digitChar {k : Nat} (h : k < 16) : hexVal (Nat.digitChar k) = some k := by
  interval_cases k <;> decide

/-! ### Decimal printing and reading -/

theorem digitsCore_acc (n : Nat) : ∀ fuel acc, n < fuel →
    digitsCore fuel n acc = natDigits n ++ acc := by
  induction n using Nat.strong_induction_on with
  | _ n ih =>
    intro fuel acc h
    match fuel, h with
    | f + 1, h =>
      by_cases h10 : n < 10
      · simp [digitsCore, natDigits, h10]
      · have hdiv : n / 10 < n := Nat.div_lt_self (by omega) (by omega)
        have lhs : digitsCore (f + 1) n acc
            = natDigits (n / 10) ++ Nat.digitChar (n % 10) :: acc := by
          rw [digitsCore, if_neg h10, ih (n / 10) hdiv f _ (by omega)]
        have rhs : natDigits n = natDigits (n / 10) ++ [Nat.digitChar (n % 10)] := by
          rw [natDigits]
          match n, h10 with
          | m + 1, h10 =>
            rw [digitsCore, if_neg h10, ih ((m + 1) / 10) hdiv (m + 1) _ (by omega)]
        rw [lhs, rhs, List.append_assoc, List.singleton_append]

theorem natDigits_lt {n : Nat} (h : n < 10) : natDigits n = [Nat.digitChar n] := by
  simp [natDigits, digitsCore, h]

theorem natDigits_ge {n : Nat} (h : 10 ≤ n) :
    natDigits n = natDigits (n / 10) ++ [Nat.digitChar (n % 10)] := by
  conv_lhs => rw [natDigits]
  match n, h with
  | m + 1, h =>
    rw [digitsCore, if_neg (by omega),
      digitsCore_acc ((m + 1) / 10) (m + 1) _ (Nat.div_lt_self (by omega) (by omega))]

theorem natDigits_all_dig (n : Nat) : ∀ c ∈ natDigits n, isDig c = true := by
  induction n using Nat.strong_induction_on with
  | _ n ih =>
    by_cases h10 : n < 10
    · rw [natDigits_lt h10]
      intro c hc
      rw [List.mem_singleton] at hc
      subst hc
      exact digitChar_isDig h10
    · rw [natDigits_ge (by omega)]
      intro c hc
      rcases List.mem_append.mp hc with hc | hc
      · exact ih (n / 10) (Nat.div_lt_self (by omega) (by omega)) c hc
      · rw [List.mem_singleton] at hc
        subst hc
        exact digitChar_isDig (Nat.mod_lt _ (by omega))

theorem natDigits_shape (n : Nat) : ∃ c cs, natDigits n = c :: cs ∧ isDig c = true := by
  induction n using Nat.strong_induction_on with
  | _ n ih =>
    by_cases h10 : n < 10
    · exact ⟨Nat.digitChar n, [], natDigits_lt h10, digitChar_isDig h10⟩
    · obtain ⟨c, cs, hshape, hdig⟩ := ih (n / 10) (Nat.div_lt_self (by omega) (by omega))
      exact ⟨c, cs ++ [Nat.digitChar (n % 10)], by rw [natDigits_ge (by omega), hshape]; rfl, hdig⟩

theorem foldl_natDigits (n : Nat) : ∀ acc,
    List.foldl digitStep acc (natDigits n) = acc * 10 ^ (natDigits n).length + n := by
  induction n using Nat.strong_induction_on with
  | _ n ih =>
    intro acc
    by_cases h10 : n < 10
    · rw [natDigits_lt h10]
      simp only [List.foldl_cons, List.foldl_nil, digitStep, List.length_singleton, pow_one]
      rw [digitChar_toNat h10]
      omega
    · have hmod : n % 10 < 10 := Nat.mod_lt _ (by omega)
      rw [natDigits_ge (by omega), List.foldl_append, List.length_append,
        ih (n / 10) (Nat.div_lt_self (by omega) (by omega))]
      simp only [List.foldl_cons, List.foldl_nil, digitStep, List.length_singleton]
      rw [digitChar_toNat hmod, pow_succ, Nat.add_mul, Nat.mul_assoc]
      omega

theorem parseDigitsAux_spec : ∀ (l : List Char) (acc : Nat) (r : List Char),
    (∀ c ∈ l, isDig c = true) → numStop r = true →
    parseDigitsAux (l ++ r) acc = (List.foldl digitStep acc l, r) := by
  intro l
  induction l with
  | nil =>
    intro acc r _ hr
    match r with
    | [] => rfl
    | c :: r' =>
      have : isDig c = false := by simpa [numStop] using hr
      simp [parseDigitsAux, this]
  | cons c cs ih =>
    intro acc r hl hr
    have hc : isDig c = true := hl c (by simp)
    have hrec := ih (digitStep acc c) r (fun d hd => hl d (by simp [hd])) hr
    calc parseDigitsAux (c :: cs ++ r) acc
        = parseDigitsAux (cs ++ r) (digitStep acc c) := by
          rw [List.cons_append, parseDigitsAux, if_pos hc]
      _ = (List.foldl digitStep acc (c :: cs), r) := by rw [hrec]; rfl

theorem parseNumber_nonneg (k : Nat) (r : List Char) (h : numStop r = true) :
    parseNumber (natDigits k ++ r) = some ((k : Int), r) := by
  obtain ⟨c, cs, hshape, hdig⟩ := natDigits_shape k
  have hcs : ∀ d ∈ cs, isDig d = true := by
    intro d hd
    exact natDigits_all_dig k d (by rw [hshape]; simp [hd])
  have h48 := isDig_spec hdig
  have hne : c ≠ '-' := ne_of_toNat_ne (by have h45 : ('-').toNat = 45 := rfl; omega)
  have hval : List.foldl digitStep (c.toNat - 48) cs = k := by
    have := foldl_natDigits k 0
    rw [hshape] at this
    simpa [digitStep] using this
  rw [hshape, List.cons_append, parseNumber.eq_def]
  simp only [if_neg hne, if_pos hdig]
  rw [parseDigitsAux_spec cs (c.toNat - 48) r hcs h, hval]

theorem parseNumber_neg (k : Nat) (r : List Char) (h : numStop r = true) :
    parseNumber ('-' :: (natDigits k ++ r)) = some (-(k : Int), r) := by
  obtain ⟨c, cs, hshape, hdig⟩ := natDigits_shape k
  have hcs : ∀ d ∈ cs, isDig d = true := by
    intro d hd
    exact natDigits_all_dig k d (by rw [hshape]; simp [hd])
  have hval : List.foldl digitStep (c.toNat - 48) cs = k := by
    have := foldl_natDigits k 0
    rw [hshape] at this
    simpa [digitStep] using this
  rw [hshape, List.cons_append, parseNumber.eq_def]
  simp only [if_pos rfl, if_pos hdig]
  rw [parseDigitsAux_spec cs (c.toNat - 48) r hcs h, hval]
  simp

/-! ### Hex and escapes -/

theorem parseHex4_hexDigits4 (n : Nat) (h : n < 0x10000) (r : List Char) :
    parseHex4 (hexDigits4 n ++ r) = some (n, r) := by
  have h1 : n / 4096 % 16 < 16 := Nat.mod_lt _ (by omega)
  have h2 : n / 256 % 16 < 16 := Nat.mod_lt _ (by omega)
  have h3 : n / 16 % 16 < 16 := Nat.mod_lt _ (by omega)
  have h4 : n % 16 < 16 := Nat.mod_lt _ (by omega)
  simp only [hexDigits4, List.cons_append, List.nil_append, parseHex4,
    hexVal_digitChar h1, hexVal_digitChar h2, hexVal_digitChar h3, hexVal_digitChar h4]
  congr 1
  congr 1
  omega

theorem parseUEscape_hex {r : List Char} {u : Nat} {r1 : List Char}
    (h : parseHex4 r = some (u, r1)) : parseUEscape r = parseUEscapeCont u r1 := by
  unfold parseUEscape
  rw [h]

theorem escapeStep (c : Char) :
    (escapeChar c = [c] ∧ c ≠ '"' ∧ c ≠ '\\' ∧ ¬ c.toNat < 0x20) ∨
    (∃ tl, escapeChar c = '\\' :: tl ∧
      ∀ rest, parseEscapeChar (tl ++ rest) = some (c, rest)) := by
  by_cases hq : c = '"'
  · exact .inr ⟨['"'], by rw [hq]; rfl, fun rest => by rw [hq]; rfl⟩
  · by_cases hb : c = '\\'
    · exact .inr ⟨['\\'], by rw [hb]; rfl, fun rest => by rw [hb]; rfl⟩
    · by_cases h08 : c = '\x08'
      · exact .inr ⟨['b'], by rw [h08]; rfl, fun rest => by rw [h08]; rfl⟩
      · by_cases h0c : c = '\x0c'
        · exact .inr ⟨['f'], by rw [h0c]; rfl, fun rest => by rw [h0c]; rfl⟩
        · by_cases h0a : c = '\n'
          · exact .inr ⟨['n'], by rw [h0a]; rfl, fun rest => by rw [h0a]; rfl⟩
          · by_cases h0d : c = '\r'
            · exact .inr ⟨['r'], by rw [h0d]; rfl, fun rest => by rw [h0d]; rfl⟩
            · by_cases h09 : c = '\t'
              · exact .inr ⟨['t'], by rw [h09]; rfl, fun rest => by rw [h09]; rfl⟩
              · by_cases hrange : c.toNat < 0x20 ∨ 0x7e < c.toNat
                · by_cases hbmp : c.toNat < 0x10000
                  · refine .inr ⟨'u' :: hexDigits4 c.toNat, ?_, ?_⟩
                    · unfold escapeChar
                      rw [if_neg hq, if_neg hb, if_neg h08, if_neg h0c, if_neg h0a,
                        if_neg h0d, if_neg h09, if_pos hrange, if_pos hbmp]
                    · intro rest
                      rw [List.cons_append]
                      have h1 : parseEscapeChar ('u' :: (hexDigits4 c.toNat ++ rest))
                          = parseUEscape (hexDigits4 c.toNat ++ rest) := rfl
                      rw [h1, parseUEscape_hex (parseHex4_hexDigits4 c.toNat hbmp rest)]
                      have hsur := char_valid c
                      unfold parseUEscapeCont
                      rw [if_neg (by omega), if_neg (by omega), charOfNat_toNat]
                  · have hub : c.toNat < 0x110000 := by
                      rcases char_valid c with h | h <;> omega
                    have hrnge : 0x10000 ≤ c.toNat := by omega
                    obtain ⟨k, hk⟩ : ∃ k, c.toNat - 0x10000 = k := ⟨_, rfl⟩
                    have hklt : k < 0x100000 := by omega
                    refine .inr ⟨'u' :: hexDigits4 (0xd800 + k / 1024) ++
                        '\\' :: 'u' :: hexDigits4 (0xdc00 + k % 1024), ?_, ?_⟩
                    · unfold escapeChar
                      rw [if_neg hq, if_neg hb, if_neg h08, if_neg h0c, if_neg h0a,
                        if_neg h0d, if_neg h09, if_pos hrange, if_neg hbmp, hk]
                      rfl
                    · intro rest
                      have hdiv : k / 1024 < 1024 := by omega
                      have hmod : k % 1024 < 1024 := Nat.mod_lt _ (by omega)
                      simp only [List.cons_append, List.append_assoc]
                      have h1 : parseEscapeChar
                          ('u' :: (hexDigits4 (0xd800 + k / 1024) ++
                            '\\' :: 'u' :: (hexDigits4 (0xdc00 + k % 1024) ++ rest)))
                          = parseUEscape (hexDigits4 (0xd800 + k / 1024) ++
                            '\\' :: 'u' :: (hexDigits4 (0xdc00 + k % 1024) ++ rest)) := rfl
                      rw [h1, parseUEscape_hex (parseHex4_hexDigits4 _ (by omega) _)]
                      unfold parseUEscapeCont
                      rw [if_pos (by omega)]
                      obtain ⟨hi, hhi⟩ : ∃ x, 0xd800 + k / 1024 = x := ⟨_, rfl⟩
                      obtain ⟨lo, hlo⟩ : ∃ x, 0xdc00 + k % 1024 = x := ⟨_, rfl⟩
                      rw [hhi, hlo]
                      have h2 : parseUEscapeLow hi
                          ('\\' :: 'u' :: (hexDigits4 lo ++ rest))
                          = parseUEscapePair hi (parseHex4 (hexDigits4 lo ++ rest)) := rfl
                      rw [h2, parseHex4_hexDigits4 _ (by omega) rest]
                      have h3 : parseUEscapePair hi (some (lo, rest))
                          = if 0xdc00 ≤ lo ∧ lo ≤ 0xdfff then
                              some (Char.ofNat (0x10000 + (hi - 0xd800) * 1024 + (lo - 0xdc00)),
                                rest)
                            else none := rfl
                      rw [h3, if_pos (by omega)]
                      have harg : 0x10000 + (hi - 0xd800) * 1024 + (lo - 0xdc00) = c.toNat := by
                        omega
                      rw [harg, charOfNat_toNat]
                · refine .inl ⟨?_, hq, hb, by omega⟩
                  unfold escapeChar
                  rw [if_neg hq, if_neg hb, if_neg h08, if_neg h0c, if_neg h0a,
                    if_neg h0d, if_neg h09, if_neg hrange]

theorem parseStrBody_rt : ∀ (s : List Char) (fuel : Nat) (r : List Char), s.length < fuel →
    parseStrBody fuel (escString s ++ ('"' :: r)) = some (s, r) := by
  intro s
  induction s with
  | nil =>
    intro fuel r h
    match fuel, h with
    | f + 1, _ => rfl
  | cons c cs ih =>
    intro fuel r h
    match fuel, h with
    | f + 1, h =>
      have hcs : cs.length < f := by simpa using h
      rcases escapeStep c with ⟨hesc, hq, hb, hctl⟩ | ⟨tl, hesc, hparse⟩
      · rw [escString, List.append_assoc, hesc, List.singleton_append, parseStrBody,
          if_neg hq, if_neg hb, if_neg hctl, ih f r hcs]
      · rw [escString, List.append_assoc, hesc, List.cons_append, parseStrBody,
          if_neg (by decide : ¬ ('\\' : Char) = '"'), if_pos rfl,
          hparse (escString cs ++ '"' :: r)]
        dsimp only
        rw [ih f r hcs]

/-! ### Shape facts about dumped values -/

theorem escapeChar_length (c : Char) : 1 ≤ (escapeChar c).length := by
  rcases escapeStep c with ⟨h, _, _, _⟩ | ⟨tl, h, _⟩ <;> simp [h]

theorem escString_length (s : List Char) : s.length ≤ (escString s).length := by
  induction s with
  | nil => simp [escString]
  | cons c cs ih =>
    rw [escString, List.length_append, List.length_cons]
    have := escapeChar_length c
    omega

theorem digit_head_not_key {c : Char} (h : 48 ≤ c.toNat ∧ c.toNat ≤ 57 ∨ c.toNat = 45) :
    ¬ c = 'n' ∧ ¬ c = 't' ∧ ¬ c = 'f' ∧ ¬ c = '"' ∧ ¬ c = '[' ∧ ¬ c = '{' := by
  have hn : ('n').toNat = 110 := rfl
  have ht : ('t').toNat = 116 := rfl
  have hf : ('f').toNat = 102 := rfl
  have hq : ('"').toNat = 34 := rfl
  have hk : ('[').toNat = 91 := rfl
  have hb : ('{').toNat = 123 := rfl
  exact ⟨ne_of_toNat_ne (by omega), ne_of_toNat_ne (by omega), ne_of_toNat_ne (by omega),
    ne_of_toNat_ne (by omega), ne_of_toNat_ne (by omega), ne_of_toNat_ne (by omega)⟩

theorem dumps_head (v : Json) :
    ∃ c cs, Json.dumps v = c :: cs ∧ ¬ c = ']' ∧ ¬ c = '}' := by
  have h93 : (']').toNat = 93 := rfl
  have h125 : ('}').toNat = 125 := rfl
  cases v with
  | null => exact ⟨'n', _, rfl, by decide, by decide⟩
  | bool b => cases b with
    | true => exact ⟨'t', _, rfl, by decide, by decide⟩
    | false => exact ⟨'f', _, rfl, by decide, by decide⟩
  | num n =>
    rcases Int.lt_or_le n 0 with hn | hn
    · exact ⟨'-', natDigits n.natAbs, by rw [Json.dumps, if_pos hn], by decide, by decide⟩
    · obtain ⟨c, cs, hsh, hdg⟩ := natDigits_shape n.toNat
      have h48 := isDig_spec hdg
      exact ⟨c, cs, by rw [Json.dumps, if_neg (by omega), hsh],
        ne_of_toNat_ne (by omega), ne_of_toNat_ne (by omega)⟩
  | str s => exact ⟨'"', _, by rw [Json.dumps, List.cons_append], by decide, by decide⟩
  | arr it =>
    cases it with
    | nil => exact ⟨'[', _, rfl, by decide, by decide⟩
    | cons h t => exact ⟨'[', _, by rw [Json.dumps, List.cons_append], by decide, by decide⟩
  | obj fs =>
    cases fs with
    | nil => exact ⟨'{', _, rfl, by decide, by decide⟩
    | cons k v t => exact ⟨'{', _, by rw [Json.dumps, List.cons_append], by decide, by decide⟩

theorem itemsDumps_head (h : Json) (t : JItems) :
    ∃ c2 Y, JItems.dumps (.cons h t) = c2 :: Y ∧ ¬ c2 = ']' := by
  obtain ⟨c2, cs2, hsh, hne, _⟩ := dumps_head h
  cases t with
  | nil => exact ⟨c2, cs2, by rw [JItems.dumps, hsh], hne⟩
  | cons h2 t2 =>
    exact ⟨c2, cs2 ++ ',' :: ' ' :: JItems.dumps (.cons h2 t2),
      by rw [JItems.dumps, hsh, List.cons_append], hne⟩

theorem fieldsDumps_head (k : List Char) (v : Json) (t : JFields) :
    ∃ Y, JFields.dumps (.cons k v t) = '"' :: Y := by
  cases t with
  | nil => exact ⟨_, by rw [JFields.dumps, List.cons_append]⟩
  | cons k2 v2 t2 => exact ⟨_, by rw [JFields.dumps, List.cons_append, List.cons_append]⟩

/-! ### The decoder re-reads every dumped value -/

theorem Json.fuelSize_pos (v : Json) : 1 ≤ v.fuelSize := by
  cases v with
  | null => exact le_refl 1
  | bool b => exact le_refl 1
  | num n => exact le_refl 1
  | str s => exact le_refl 1
  | arr it =>
    cases it with
    | nil => exact le_refl 1
    | cons h t =>
      have he : Json.fuelSize (.arr (.cons h t)) = 1 + JItems.fuelSize (.cons h t) := rfl
      omega
  | obj fs =>
    cases fs with
    | nil => exact le_refl 1
    | cons k v t =>
      have he : Json.fuelSize (.obj (.cons k v t)) = 1 + JFields.fuelSize (.cons k v t) := rfl
      omega

theorem parse_rt : ∀ fuel : Nat,
    (∀ v r, Json.fuelSize v ≤ fuel → numStop r = true →
      parseAux fuel .val (Json.dumps v ++ r) = some (.val v r)) ∧
    (∀ h t r, JItems.fuelSize (.cons h t) ≤ fuel →
      parseAux fuel .items (JItems.dumps (.cons h t) ++ ']' :: r)
        = some (.items (.cons h t) r)) ∧
    (∀ k v t r, JFields.fuelSize (.cons k v t) ≤ fuel →
      parseAux fuel .fields (JFields.dumps (.cons k v t) ++ '}' :: r)
        = some (.fields (.cons k v t) r)) := by
  intro fuel
  induction fuel with
  | zero =>
    refine ⟨?_, ?_, ?_⟩
    · intro v r hsz _
      have := Json.fuelSize_pos v
      omega
    · intro h t r hsz
      have he : JItems.fuelSize (.cons h t) = 1 + Json.fuelSize h + JItems.fuelSize t := rfl
      omega
    · intro k v t r hsz
      have he : JFields.fuelSize (.cons k v t) = 1 + Json.fuelSize v + JFields.fuelSize t := rfl
      omega
  | succ fuel ih =>
    obtain ⟨ihv, ihi, ihf⟩ := ih
    refine ⟨?_, ?_, ?_⟩
    · intro v r hsz hstop
      cases v with
      | null => exact rfl
      | bool b =>
        cases b with
        | true => exact rfl
        | false => exact rfl
      | num n =>
        rcases Int.lt_or_le n 0 with hn | hn
        · have hd : Json.dumps (.num n) = '-' :: natDigits n.natAbs := by
            rw [Json.dumps, if_pos hn]
          rw [hd, List.cons_append, parseAux.eq_def]
          dsimp only
          rw [if_neg (by decide), if_neg (by decide), if_neg (by decide),
            if_neg (by decide), if_neg (by decide), if_neg (by decide)]
          rw [parseNumber_neg n.natAbs r hstop]
          have he : numCont (some (-(n.natAbs : Int), r))
              = some (.val (.num (-(n.natAbs : Int))) r) := rfl
          rw [he]
          have hn2 : -((n.natAbs : Int)) = n := by omega
          rw [hn2]
        · have hd : Json.dumps (.num n) = natDigits n.toNat := by
            rw [Json.dumps, if_neg (by omega)]
          obtain ⟨c, cs, hsh, hdg⟩ := natDigits_shape n.toNat
          obtain ⟨k1, k2, k3, k4, k5, k6⟩ := digit_head_not_key (.inl (isDig_spec hdg))
          rw [hd, hsh, List.cons_append, parseAux.eq_def]
          dsimp only
          rw [if_neg k1, if_neg k2, if_neg k3, if_neg k4, if_neg k5, if_neg k6]
          rw [← List.cons_append, ← hsh, parseNumber_nonneg n.toNat r hstop]
          have he : numCont (some ((n.toNat : Int), r))
              = some (.val (.num ((n.toNat : Int))) r) := rfl
          rw [he]
          have hn2 : ((n.toNat : Int)) = n := by omega
          rw [hn2]
      | str s =>
        have hd : Json.dumps (.str s) ++ r = '"' :: (escString s ++ ('"' :: r)) := by
          rw [Json.dumps]
          simp [List.cons_append, List.append_assoc]
        rw [hd, parseAux.eq_def]
        dsimp only
        rw [if_neg (by decide), if_neg (by decide), if_neg (by decide), if_pos rfl]
        rw [parseStrBody_rt s _ r (by
          have := escString_length s
          simp only [List.length_append, List.length_cons]
          omega)]
        rfl
      | arr it =>
        cases it with
        | nil => exact rfl
        | cons h t =>
          obtain ⟨c2, Y, hiY, hc2⟩ := itemsDumps_head h t
          have hd : Json.dumps (.arr (.cons h t)) ++ r = '[' :: (c2 :: (Y ++ (']' :: r))) := by
            rw [Json.dumps, hiY]
            simp [List.cons_append, List.append_assoc]
          rw [hd, parseAux.eq_def]
          dsimp only
          rw [if_neg (by decide), if_neg (by decide), if_neg (by decide),
            if_neg (by decide), if_pos rfl]
          try dsimp only
          rw [if_neg hc2]
          rw [show (c2 :: (Y ++ (']' :: r))) = JItems.dumps (.cons h t) ++ ']' :: r by
            rw [hiY, List.cons_append]]
          have hs1 : Json.fuelSize (.arr (.cons h t)) = 1 + JItems.fuelSize (.cons h t) := rfl
          rw [ihi h t r (by omega)]
          rfl
      | obj fs =>
        cases fs with
        | nil => exact rfl
        | cons k v t =>
          obtain ⟨Y, hfY⟩ := fieldsDumps_head k v t
          have hd : Json.dumps (.obj (.cons k v t)) ++ r = '{' :: ('"' :: (Y ++ ('}' :: r))) := by
            rw [Json.dumps, hfY]
            simp [List.cons_append, List.append_assoc]
          rw [hd, parseAux.eq_def]
          dsimp only
          rw [if_neg (by decide), if_neg (by decide), if_neg (by decide),
            if_neg (by decide), if_neg (by decide), if_pos rfl]
          try dsimp only
          rw [if_neg (by decide)]
          rw [show ('"' :: (Y ++ ('}' :: r))) = JFields.dumps (.cons k v t) ++ '}' :: r by
            rw [hfY, List.cons_append]]
          have hs1 : Json.fuelSize (.obj (.cons k v t)) = 1 + JFields.fuelSize (.cons k v t) := rfl
          rw [ihf k v t r (by omega)]
          rfl
    · intro h t r hsz
      have hs1 : JItems.fuelSize (.cons h t) = 1 + Json.fuelSize h + JItems.fuelSize t := rfl
      cases t with
      | nil =>
        have hd : JItems.dumps (.cons h .nil) ++ ']' :: r = Json.dumps h ++ (']' :: r) := by
          rw [JItems.dumps]
        rw [hd, parseAux.eq_def]
        dsimp only
        rw [ihv h (']' :: r) (by omega) rfl]
        dsimp only
        rw [if_pos rfl]
      | cons h2 t2 =>
        have hs2 : JItems.fuelSize (.cons h2 t2) = 1 + Json.fuelSize h2 + JItems.fuelSize t2 := rfl
        have hd : JItems.dumps (.cons h (.cons h2 t2)) ++ ']' :: r
            = Json.dumps h ++ (',' :: ' ' :: (JItems.dumps (.cons h2 t2) ++ ']' :: r)) := by
          rw [JItems.dumps]
          simp [List.cons_append, List.append_assoc]
        rw [hd, parseAux.eq_def]
        dsimp only
        rw [ihv h (',' :: ' ' :: (JItems.dumps (.cons h2 t2) ++ ']' :: r)) (by omega) rfl]
        dsimp only
        rw [if_neg (by decide), if_pos rfl]
        try dsimp only
        rw [if_pos rfl]
        rw [ihi h2 t2 r (by omega)]
        rfl
    · intro k v t r hsz
      have hs1 : JFields.fuelSize (.cons k v t) = 1 + Json.fuelSize v + JFields.fuelSize t := rfl
      cases t with
      | nil =>
        have hd : JFields.dumps (.cons k v .nil) ++ '}' :: r
            = '"' :: (escString k ++ ('"' :: (':' :: ' ' :: (Json.dumps v ++ '}' :: r)))) := by
          rw [JFields.dumps]
          simp [List.cons_append, List.append_assoc]
        rw [hd, parseAux.eq_def]
        dsimp only
        rw [if_pos rfl]
        rw [parseStrBody_rt k _ _ (by
          have := escString_length k
          simp only [List.length_append, List.length_cons]
          omega)]
        dsimp only
        rw [if_pos rfl]
        try dsimp only
        rw [if_pos rfl]
        rw [ihv v ('}' :: r) (by omega) rfl]
        dsimp only
        rw [if_pos rfl]
      | cons k2 v2 t2 =>
        have hs2 : JFields.fuelSize (.cons k2 v2 t2) = 1 + Json.fuelSize v2 + JFields.fuelSize t2 := rfl
        have hd : JFields.dumps (.cons k v (.cons k2 v2 t2)) ++ '}' :: r
            = '"' :: (escString k ++ ('"' :: (':' :: ' ' ::
                (Json.dumps v ++ (',' :: ' ' :: (JFields.dumps (.cons k2 v2 t2) ++ '}' :: r)))))) := by
          rw [JFields.dumps]
          simp [List.cons_append, List.append_assoc]
        rw [hd, parseAux.eq_def]
        dsimp only
        rw [if_pos rfl]
        rw [parseStrBody_rt k _ _ (by
          have := escString_length k
          simp only [List.length_append, List.length_cons]
          omega)]
        dsimp only
        rw [if_pos rfl]
        try dsimp only
        rw [if_pos rfl]
        rw [ihv v (',' :: ' ' :: (JFields.dumps (.cons k2 v2 t2) ++ '}' :: r)) (by omega) rfl]
        dsimp only
        rw [if_neg (by decide), if_pos rfl]
        try dsimp only
        rw [if_pos rfl]
        rw [ihf k2 v2 t2 r (by omega)]
        rfl

mutual
theorem Json.fuelSizeLeDumps (v : Json) : v.fuelSize ≤ v.dumps.length := by
  cases v with
  | null => decide
  | bool b => cases b <;> decide
  | num n =>
    have h1 : Json.fuelSize (.num n) = 1 := rfl
    rcases Int.lt_or_le n 0 with hn | hn
    · rw [h1, Json.dumps, if_pos hn]
      simp
    · obtain ⟨c, cs, hsh, _⟩ := natDigits_shape n.toNat
      rw [h1, Json.dumps, if_neg (by omega), hsh]
      simp
  | str s =>
    have h1 : Json.fuelSize (.str s) = 1 := rfl
    rw [h1, Json.dumps]
    simp
  | arr it =>
    cases it with
    | nil => decide
    | cons h t =>
      have h1 : Json.fuelSize (.arr (.cons h t)) = 1 + JItems.fuelSize (.cons h t) := rfl
      have h2 := JItems.fuelSizeLeDumpsItems (.cons h t)
      rw [h1, Json.dumps]
      simp only [List.cons_append, List.length_cons, List.length_append, List.length_singleton]
      omega
  | obj fs =>
    cases fs with
    | nil => decide
    | cons k v t =>
      have h1 : Json.fuelSize (.obj (.cons k v t)) = 1 + JFields.fuelSize (.cons k v t) := rfl
      have h2 := JFields.fuelSizeLeDumpsFields (.cons k v t)
      rw [h1, Json.dumps]
      simp only [List.cons_append, List.length_cons, List.length_append, List.length_singleton]
      omega
theorem JItems.fuelSizeLeDumpsItems (it : JItems) : it.fuelSize ≤ (JItems.dumps it).length + 1 := by
  cases it with
  | nil => decide
  | cons h t =>
    have h1 : JItems.fuelSize (.cons h t) = 1 + Json.fuelSize h + JItems.fuelSize t := rfl
    have h2 := Json.fuelSizeLeDumps h
    cases t with
    | nil =>
      have h3 : JItems.fuelSize (JItems.nil) = 0 := rfl
      rw [h1, JItems.dumps]
      omega
    | cons h2t t2 =>
      have h4 := JItems.fuelSizeLeDumpsItems (.cons h2t t2)
      rw [h1, JItems.dumps]
      simp only [List.length_append, List.length_cons]
      omega
theorem JFields.fuelSizeLeDumpsFields (fs : JFields) : fs.fuelSize ≤ (JFields.dumps fs).length + 1 := by
  cases fs with
  | nil => decide
  | cons k v t =>
    have h1 : JFields.fuelSize (.cons k v t) = 1 + Json.fuelSize v + JFields.fuelSize t := rfl
    have h2 := Json.fuelSizeLeDumps v
    cases t with
    | nil =>
      have h3 : JFields.fuelSize (JFields.nil) = 0 := rfl
      rw [h1, JFields.dumps]
      simp only [List.cons_append, List.length_append, List.length_cons]
      omega
    | cons k2 v2 t2 =>
      have h4 := JFields.fuelSizeLeDumpsFields (.cons k2 v2 t2)
      rw [h1, JFields.dumps]
      simp only [List.cons_append, List.length_append, List.length_cons]
      omega
end

/-- The payload round trip: decoding a dumped value gives the value back. -/
theorem loads_dumps (v : Json) : loads (Json.dumps v) = some v := by
  unfold loads
  have h2 := (parse_rt ((Json.dumps v).length + 1)).1 v []
    (by have := Json.fuelSizeLeDumps v; omega) rfl
  rw [List.append_nil] at h2
  rw [h2]

/-! ## The queue store: `QueuesDAO` over the sqlite database -/

/-- A row of the `messages` table: rowid, `queue_id`, and the stored
    `json.dumps` text. -/
structure Msg where
  id : Nat
  queueId : Nat
  message : List Char
  deriving DecidableEq

/-- A row of the `queues` table. -/
structure QueueRow where
  id : Nat
  name : String
  deriving DecidableEq

/-- The database state: both tables, rows in insertion order. -/
structure Store where
  queues : List QueueRow
  messages : List Msg
  deriving DecidableEq

/-- The typed failure raised by `check_queue` (a `ValueError` carrying the
    queue name in the source). -/
inductive DAOError where
  | noSuchQueue (qname : String)
  deriving DecidableEq

/-- One entry of the list built by the `pop`/`get` loop:
    `{"id": row[0], "message": json.loads(row[1])}`. -/
structure PopRow where
  id : Nat
  message : Option Json
  deriving DecidableEq

namespace QueuesDAO

/-- sqlite rowid assignment for a fresh row of a table without
    AUTOINCREMENT: one more than the largest rowid present, `1` when the
    table is empty. -/
def nextId (ids : List Nat) : Nat := ids.foldr max 0 + 1

/-- `CHECK_QUEUE_EXISTS`: select the queue row by name. -/
def lookupQueue (st : Store) (qname : String) : Option QueueRow :=
  st.queues.find? (fun row => row.name == qname)

/-- `check_queue`: raise `NoSuchQueue` when the name is absent. -/
def check_queue (st : Store) (qname : String) : Except DAOError Unit :=
  match lookupQueue st qname with
  | none => .error (.noSuchQueue qname)
  | some _ => .ok ()

/-- `init_db`: fresh database holding only the `default` queue (rowid 1)
    and no messages. -/
def init_db : Store := ⟨[⟨1, "default"⟩], []⟩

/-- `push`: `check_queue`, then `PUSH_MESSAGE` inserts the dumped payload
    under the queue's id and returns `lastrowid`. -/
def push (st : Store) (qname : String) (message : Json) :
    Except DAOError (Nat × Store) :=
  match lookupQueue st qname with
  | none => .error (.noSuchQueue qname)
  | some row =>
    let i := nextId (st.messages.map Msg.id)
    .ok (i, { st with messages := st.messages ++ [⟨i, row.id, message.dumps⟩] })

/-- Insert into a list already sorted by ascending id. -/
def insertById (m : Msg) : List Msg → List Msg
  | [] => [m]
  | x :: xs => if m.id ≤ x.id then m :: x :: xs else x :: insertById m xs

/-- Sort rows by ascending id — the `order by id asc` of `GET_MESSAGES`. -/
def sortById : List Msg → List Msg
  | [] => []
  | x :: xs => insertById x (sortById xs)

/-- `GET_MESSAGES`: the queue's messages ordered by id ascending, limited
    to `n` rows; empty when the queue is absent (NULL subselect). -/
def getMessages (st : Store) (qname : String) (n : Nat) : List Msg :=
  match lookupQueue st qname with
  | none => []
  | some row => (sortById (st.messages.filter (fun m => m.queueId == row.id))).take n

/-- The two lists the `pop` loop accumulates from the cursor: the raw ids
    and the rendered rows. -/
def popSelect (st : Store) (qname : String) (n : Nat) : List Nat × List PopRow :=
  ((getMessages st qname n).map Msg.id,
   (getMessages st qname n).map (fun m => ⟨m.id, loads m.message⟩))

/-- `DELETE_MESSAGES ... where id in (...)`, executed only when some row
    was selected (the `if ids:` guard). -/
def popDelete (st : Store) (ids : List Nat) : Store :=
  if ids.isEmpty then st
  else { st with messages := st.messages.filter (fun m => !(ids.contains m.id)) }

/-- `pop`: check the queue, select the oldest `n` rows, then delete exactly
    the selected ids. -/
def pop (st : Store) (qname : String) (n : Nat) :
    Except DAOError (List PopRow × Store) :=
  match check_queue st qname with
  | .error e => .error e
  | .ok _ => .ok ((popSelect st qname n).2, popDelete st (popSelect st qname n).1)

/-- `get`: like `pop`, but without removing. -/
def get (st : Store) (qname : String) (n : Nat) : Except DAOError (List PopRow) :=
  match check_queue st qname with
  | .error e => .error e
  | .ok _ => .ok (popSelect st qname n).2

/-- `COUNT_MESSAGES` (`0` when the subselect is NULL). -/
def countMessages (st : Store) (qname : String) : Nat :=
  match lookupQueue st qname with
  | none => 0
  | some row => (st.messages.filter (fun m => m.queueId == row.id)).length

/-- `count`: check the queue, then count its messages. -/
def count (st : Store) (qname : String) : Except DAOError Nat :=
  match check_queue st qname with
  | .error e => .error e
  | .ok _ => .ok (countMessages st qname)

/-- `create`: `CREATE_QUEUE`; a duplicate name raises `IntegrityError`
    from the unique constraint, which is swallowed. -/
def create (st : Store) (qname : String) : Store :=
  match lookupQueue st qname with
  | some _ => st
  | none =>
    { st with queues := st.queues ++ [⟨nextId (st.queues.map QueueRow.id), qname⟩] }

/-- `DELETE_QUEUE_MESSAGES` (deletes nothing when the subselect is NULL). -/
def deleteQueueMessages (st : Store) (qname : String) : Store :=
  match lookupQueue st qname with
  | none => st
  | some row => { st with messages := st.messages.filter (fun m => !(m.queueId == row.id)) }

/-- `DELETE_QUEUE`. -/
def deleteQueueRow (st : Store) (qname : String) : Store :=
  { st with queues := st.queues.filter (fun row => !(row.name == qname)) }

/-- `delete`: both statements, messages first. -/
def delete (st : Store) (qname : String) : Store :=
  deleteQueueRow (deleteQueueMessages st qname) qname

end QueuesDAO

/-! ## The request dispatcher -/

/-- maximum number of messages user may request for -/
def MAX_MESSAGES_REQUEST_NUMBER : Nat := 100

/-- What a handler can fail with: the three validation rejections raised
    before the store is consulted, or a store failure. -/
inductive HandlerError where
  | notAnInteger
  | notPositive
  | tooLarge
  | dao (e : DAOError)
  deriving DecidableEq

/-- Python `str.isdigit` on ASCII text: nonempty and all digits. -/
def isdigit (s : List Char) : Bool := !s.isEmpty && s.all isDig

/-- Python `int` on a digit string. -/
def intOfDigits (s : List Char) : Int := (s.foldl digitStep 0 : Nat)

/-- `mq_pop`: read `n` from the query string (default `"1"`), validate it,
    then call the store's `pop`. -/
def mq_pop (st : Store) (qname : String) (nArg : Option (List Char)) :
    Except HandlerError (List PopRow × Store) :=
  let s := nArg.getD ['1']
  if !(isdigit s) then .error .notAnInteger
  else
    let n : Int := intOfDigits s
    if n < 0 then .error .notPositive
    else if n > (MAX_MESSAGES_REQUEST_NUMBER : Int) then .error .tooLarge
    else
      match QueuesDAO.pop st qname n.toNat with
      | .error e => .error (.dao e)
      | .ok res => .ok res

/-- `mq_get`: the same validation, then the store's `get`. -/
def mq_get (st : Store) (qname : String) (nArg : Option (List Char)) :
    Except HandlerError (List PopRow) :=
  let s := nArg.getD ['1']
  if !(isdigit s) then .error .notAnInteger
  else
    let n : Int := intOfDigits s
    if n < 0 then .error .notPositive
    else if n > (MAX_MESSAGES_REQUEST_NUMBER : Int) then .error .tooLarge
    else
      match QueuesDAO.get st qname n.toNat with
      | .error e => .error (.dao e)
      | .ok res => .ok res

/-! ## Claim C3: absent queue gives a typed `NoSuchQueue` failure -/

/-- C3: for every queue name absent from the store, `push`, `pop`, `get`
    (peek) and `count` each fail with the typed `NoSuchQueue` failure carrying
    that name; no operation substitutes a default result, and (the error
    carrying no store) the store is left unchanged. -/
theorem c3_absent_queue_typed_failure (st : Store) (q : String) (v : Json) (n : Nat)
    (h : QueuesDAO.lookupQueue st q = none) :
    QueuesDAO.push st q v = .error (.noSuchQueue q) ∧
    QueuesDAO.pop st q n = .error (.noSuchQueue q) ∧
    QueuesDAO.get st q n = .error (.noSuchQueue q) ∧
    QueuesDAO.count st q = .error (.noSuchQueue q) := by
  refine ⟨?_, ?_, ?_, ?_⟩ <;>
    simp [QueuesDAO.push, QueuesDAO.pop, QueuesDAO.get, QueuesDAO.count,
      QueuesDAO.check_queue, h]

/-- C3 witness: the fresh store has no queue `"missing"`, and all four
    operations fail on it with `NoSuchQueue "missing"`. -/
theorem c3_witness :
    QueuesDAO.push QueuesDAO.init_db "missing" Json.null = .error (.noSuchQueue "missing") ∧
    QueuesDAO.pop QueuesDAO.init_db "missing" 1 = .error (.noSuchQueue "missing") ∧
    QueuesDAO.get QueuesDAO.init_db "missing" 1 = .error (.noSuchQueue "missing") ∧
    QueuesDAO.count QueuesDAO.init_db "missing" = .error (.noSuchQueue "missing") :=
  c3_absent_queue_typed_failure QueuesDAO.init_db "missing" Json.null 1 rfl

/-! ## Claim C6: create on existing and delete on absent are no-ops -/

/-- C6: `create` on an already-existing queue and `delete` on an absent
    queue return the store exactly unchanged (queue set, messages and ids),
    and neither can fail (both are total functions in the model, as in the
    code, which swallows the only possible `IntegrityError`). -/
theorem c6_create_delete_noop (st : Store) (q q2 : String)
    (hexists : (QueuesDAO.lookupQueue st q).isSome = true)
    (habsent : QueuesDAO.lookupQueue st q2 = none) :
    QueuesDAO.create st q = st ∧ QueuesDAO.delete st q2 = st := by
  constructor
  · obtain ⟨row, hrow⟩ := Option.isSome_iff_exists.mp hexists
    simp [QueuesDAO.create, hrow]
  · have hall := List.find?_eq_none.mp habsent
    have habsent2 : st.queues.find? (fun row => row.name == q2) = none := habsent
    have hq : QueuesDAO.deleteQueueMessages st q2 = st := by
      simp [QueuesDAO.deleteQueueMessages, QueuesDAO.lookupQueue, habsent2]
    rw [QueuesDAO.delete, hq, QueuesDAO.deleteQueueRow]
    have : st.queues.filter (fun row => !(row.name == q2)) = st.queues :=
      List.filter_eq_self.mpr (fun row hrow => by simpa using hall row hrow)
    rw [this]

/-- C6 witness: on the fresh store, `create "default"` and
    `delete "missing"` are both exact no-ops. -/
theorem c6_witness :
    QueuesDAO.create QueuesDAO.init_db "default" = QueuesDAO.init_db ∧
    QueuesDAO.delete QueuesDAO.init_db "missing" = QueuesDAO.init_db :=
  c6_create_delete_noop QueuesDAO.init_db "default" "missing" rfl rfl

/-! ## Claim C10: the `n must be positive` branch is unreachable -/

/-- C10: in both `mq_pop` and `mq_get`, once the request string passes the
    `isdigit` check its integer value is non-negative, so the `n < 0` guard
    can never fire: neither handler ever produces the `notPositive` error,
    for any store, queue name and request argument. -/
theorem c10_negative_guard_unreachable (st : Store) (q : String)
    (nArg : Option (List Char)) :
    ¬ mq_pop st q nArg = .error .notPositive ∧
    ¬ mq_get st q nArg = .error .notPositive := by
  have hnn : ¬ intOfDigits (nArg.getD ['1']) < 0 := by
    unfold intOfDigits
    exact not_lt.mpr (Int.natCast_nonneg _)
  constructor
  · unfold mq_pop
    by_cases hd : isdigit (nArg.getD ['1'])
    · rw [if_neg (by simp [hd]), if_neg hnn]
      by_cases hbig : intOfDigits (nArg.getD ['1']) > (MAX_MESSAGES_REQUEST_NUMBER : Int)
      · rw [if_pos hbig]
        intro contra
        cases contra
      · rw [if_neg hbig]
        cases QueuesDAO.pop st q (intOfDigits (nArg.getD ['1'])).toNat with
        | error e => intro contra; simp at contra
        | ok res => intro contra; simp at contra
    · rw [if_pos (by simp [hd])]
      intro contra
      cases contra
  · unfold mq_get
    by_cases hd : isdigit (nArg.getD ['1'])
    · rw [if_neg (by simp [hd]), if_neg hnn]
      by_cases hbig : intOfDigits (nArg.getD ['1']) > (MAX_MESSAGES_REQUEST_NUMBER : Int)
      · rw [if_pos hbig]
        intro contra
        cases contra
      · rw [if_neg hbig]
        cases QueuesDAO.get st q (intOfDigits (nArg.getD ['1'])).toNat with
        | error e => intro contra; simp at contra
        | ok res => intro contra; simp at contra
    · rw [if_pos (by simp [hd])]
      intro contra
      cases contra

/-! ## Claim C5: concurrent pops are NOT disjoint (code bug)

`pop` issues its `SELECT` and its `DELETE` as two separate sqlite statements
on a per-request connection, with no transaction spanning both: a second
`pop` whose `SELECT` runs before the first one's `DELETE` commits reads the
same rows.  `popSelect`/`popDelete` are exactly those two statements, and
`pop` is their sequential composition; the interleaving
select-A, select-B, delete-A, delete-B below delivers the single message to
both callers. -/

/-- The failing input: the store holding one queue `"default"` (id 1) with
    exactly one message, id 1, payload text `null` — the state produced by
    `push init_db "default" Json.null`. -/
def c5Store : Store := ⟨[⟨1, "default"⟩], [⟨1, 1, ['n', 'u', 'l', 'l']⟩]⟩

/-- C5, refuted on the code: with both selects racing ahead of both deletes,
    caller A and caller B each receive the message with id 1 (so delivery is
    not disjoint), and the final state has an empty queue. -/
theorem c5_double_delivery :
    QueuesDAO.push QueuesDAO.init_db "default" Json.null = .ok (1, c5Store) ∧
    (QueuesDAO.popSelect c5Store "default" 1).2 = [⟨1, some Json.null⟩] ∧
    (QueuesDAO.popDelete
        (QueuesDAO.popDelete c5Store (QueuesDAO.popSelect c5Store "default" 1).1)
        (QueuesDAO.popSelect c5Store "default" 1).1).messages = [] := by
  refine ⟨?_, ?_, ?_⟩ <;> rfl

/-! ## Claim C2: ids are NOT never-reassigned (corrected) -/

/-- Extracts the chain of ids from the C2 scenario: push, pop the message
    back out, push again. -/
def c2Scenario : Option (Nat × Nat) :=
  match QueuesDAO.push QueuesDAO.init_db "default" Json.null with
  | .ok (i1, st1) =>
    match QueuesDAO.pop st1 "default" 1 with
    | .ok (_, st2) =>
      match QueuesDAO.push st2 "default" Json.null with
      | .ok (i2, _) => some (i1, i2)
      | .error _ => none
    | .error _ => none
  | .error _ => none

/-- C2 counterexample: the first push returns id 1; after a pop removes that
    message, the next push returns id 1 again — the ids of successive pushes
    are not strictly increasing and an id of a removed message is reassigned
    (sqlite reuses the rowid once the largest row is gone, since the table
    has no AUTOINCREMENT). -/
theorem c2_counterexample : c2Scenario = some (1, 1) := by rfl

/-- Sequence of pushes, each to its own (existing) queue. -/
def pushSeq (st : Store) : List (String × Json) → Except DAOError (List Nat × Store)
  | [] => .ok ([], st)
  | (q, m) :: rest =>
    match QueuesDAO.push st q m with
    | .error e => .error e
    | .ok (i, st1) =>
      match pushSeq st1 rest with
      | .error e => .error e
      | .ok (is, st2) => .ok (i :: is, st2)

theorem le_foldr_max (l : List Nat) : ∀ x ∈ l, x ≤ l.foldr max 0 := by
  induction l with
  | nil => simp
  | cons a as ih =>
    intro x hx
    rcases List.mem_cons.mp hx with hx | hx
    · subst hx
      exact le_max_left _ _
    · exact le_trans (ih x hx) (le_max_right _ _)

/-- C2 amended: for every uninterrupted sequence of pushes (no pops or
    deletions in between), the returned ids are strictly increasing,
    regardless of target queue. -/
theorem c2_amended_push_ids_increase (ps : List (String × Json)) :
    ∀ st ids st2, pushSeq st ps = .ok (ids, st2) →
      List.Chain' (fun a b => a < b) ids ∧
      (∀ j ∈ ids, ∀ x ∈ st.messages.map Msg.id, x < j) := by
  induction ps with
  | nil =>
    intro st ids st2 h
    simp [pushSeq] at h
    obtain ⟨h1, h2⟩ := h
    subst h1
    simp
  | cons p rest ih =>
    intro st ids st2 h
    rw [pushSeq] at h
    cases hpush : QueuesDAO.push st p.1 p.2 with
    | error e => rw [hpush] at h; cases h
    | ok res =>
      obtain ⟨i, st1⟩ := res
      rw [hpush] at h
      dsimp only at h
      cases hrest : pushSeq st1 rest with
      | error e =>
        rw [hrest] at h
        dsimp only at h
        cases h
      | ok res2 =>
        obtain ⟨is, st3⟩ := res2
        rw [hrest] at h
        dsimp only at h
        cases h
        obtain ⟨hchain, hgt⟩ := ih st1 is _ hrest
        -- the pushed id dominates every id of st, and st1's ids are st's plus i
        have hpush2 : i = QueuesDAO.nextId (st.messages.map Msg.id) ∧
            st1.messages.map Msg.id = st.messages.map Msg.id ++ [i] := by
          unfold QueuesDAO.push at hpush
          cases hlk : QueuesDAO.lookupQueue st p.1 with
          | none => rw [hlk] at hpush; cases hpush
          | some row =>
            rw [hlk] at hpush
            cases hpush
            constructor
            · rfl
            · simp
        obtain ⟨hi, hids⟩ := hpush2
        have hdom : ∀ x ∈ st.messages.map Msg.id, x < i := by
          intro x hx
          have := le_foldr_max _ x hx
          rw [hi]
          unfold QueuesDAO.nextId
          omega
        have hlt : ∀ j ∈ is, i < j := by
          intro j hj
          exact hgt j hj i (by rw [hids]; simp)
        refine ⟨?_, ?_⟩
        · rw [List.chain'_cons']
          refine ⟨?_, hchain⟩
          intro b hb
          exact hlt b (List.mem_of_mem_head? hb)
        · intro j hj x hx
          rcases List.mem_cons.mp hj with hj | hj
          · subst hj
            exact hdom x hx
          · exact hgt j hj x (by rw [hids]; exact List.mem_append_left _ hx)

/-- C2 amended, witness: pushing twice into the fresh store's `default`
    queue yields the strictly increasing ids 1, 2. -/
theorem c2_amended_witness :
    pushSeq QueuesDAO.init_db [("default", Json.null), ("default", Json.bool true)]
        = .ok ([1, 2], ⟨[⟨1, "default"⟩],
          [⟨1, 1, ['n', 'u', 'l', 'l']⟩, ⟨2, 1, ['t', 'r', 'u', 'e']⟩]⟩) ∧
      List.Chain' (fun a b => a < b) [1, 2] :=
  have h : pushSeq QueuesDAO.init_db [("default", Json.null), ("default", Json.bool true)]
      = .ok ([1, 2], ⟨[⟨1, "default"⟩],
        [⟨1, 1, ['n', 'u', 'l', 'l']⟩, ⟨2, 1, ['t', 'r', 'u', 'e']⟩]⟩) := rfl
  ⟨h, (c2_amended_push_ids_increase _ _ _ _ h).1⟩

/-! ## Claim C9: the dispatcher validates `n` before calling the store -/

/-- C9: for any request string `s` that is not a nonnegative decimal integer
    or whose value exceeds the configured maximum 100, both `mq_pop` and
    `mq_get` reject the request with a validation error; the result does not
    depend on the store in any way (the store is never consulted). -/
theorem c9_dispatcher_validates (st st2 : Store) (q : String) (s : List Char)
    (hbad : ¬ (isdigit s = true ∧ intOfDigits s ≤ (MAX_MESSAGES_REQUEST_NUMBER : Int))) :
    (mq_pop st q (some s) = mq_pop st2 q (some s) ∧
     mq_get st q (some s) = mq_get st2 q (some s)) ∧
    ((mq_pop st q (some s) = .error .notAnInteger ∧
      mq_get st q (some s) = .error .notAnInteger) ∨
     (mq_pop st q (some s) = .error .tooLarge ∧
      mq_get st q (some s) = .error .tooLarge)) := by
  by_cases hd : isdigit s
  · have hbig : intOfDigits s > (MAX_MESSAGES_REQUEST_NUMBER : Int) := by
      rcases not_and_or.mp hbad with h | h
      · exact absurd hd h
      · omega
    have hnn : ¬ intOfDigits s < 0 := by
      unfold intOfDigits
      exact not_lt.mpr (Int.natCast_nonneg _)
    have hpop : ∀ st3 : Store, mq_pop st3 q (some s) = .error .tooLarge := by
      intro st3
      unfold mq_pop
      rw [if_neg (by simp [hd])]
      simp only [Option.getD_some]
      rw [if_neg hnn, if_pos hbig]
    have hget : ∀ st3 : Store, mq_get st3 q (some s) = .error .tooLarge := by
      intro st3
      unfold mq_get
      rw [if_neg (by simp [hd])]
      simp only [Option.getD_some]
      rw [if_neg hnn, if_pos hbig]
    exact ⟨⟨by rw [hpop, hpop], by rw [hget, hget]⟩, .inr ⟨hpop st, hget st⟩⟩
  · have hpop : ∀ st3 : Store, mq_pop st3 q (some s) = .error .notAnInteger := by
      intro st3
      unfold mq_pop
      rw [if_pos (by simp [hd])]
    have hget : ∀ st3 : Store, mq_get st3 q (some s) = .error .notAnInteger := by
      intro st3
      unfold mq_get
      rw [if_pos (by simp [hd])]
    exact ⟨⟨by rw [hpop, hpop], by rw [hget, hget]⟩, .inl ⟨hpop st, hget st⟩⟩

/-- C9 witness: the non-numeric request `"x"` is rejected by both handlers
    independent of the store contents. -/
theorem c9_witness :
    (mq_pop QueuesDAO.init_db "default" (some ['x'])
        = mq_pop ⟨[], []⟩ "default" (some ['x']) ∧
     mq_get QueuesDAO.init_db "default" (some ['x'])
        = mq_get ⟨[], []⟩ "default" (some ['x'])) ∧
    ((mq_pop QueuesDAO.init_db "default" (some ['x']) = .error .notAnInteger ∧
      mq_get QueuesDAO.init_db "default" (some ['x']) = .error .notAnInteger) ∨
     (mq_pop QueuesDAO.init_db "default" (some ['x']) = .error .tooLarge ∧
      mq_get QueuesDAO.init_db "default" (some ['x']) = .error .tooLarge)) :=
  c9_dispatcher_validates QueuesDAO.init_db ⟨[], []⟩ "default" ['x'] (by decide)

/-! ## Sortedness and permutation facts about `sortById` -/

namespace QueuesDAO

theorem insertById_eq_cons {m : Msg} {l : List Msg} (h : ∀ x ∈ l.head?, m.id ≤ x.id) :
    insertById m l = m :: l := by
  cases l with
  | nil => rfl
  | cons x xs => rw [insertById, if_pos (h x rfl)]

theorem sortById_eq_self : ∀ {l : List Msg}, List.Chain' (fun a b => a.id ≤ b.id) l →
    sortById l = l := by
  intro l
  induction l with
  | nil => intro h; rfl
  | cons x xs ih =>
    intro h
    rw [List.chain'_cons'] at h
    rw [sortById, ih h.2, insertById_eq_cons h.1]

theorem insertById_perm (m : Msg) (l : List Msg) : List.Perm (insertById m l) (m :: l) := by
  induction l with
  | nil => exact List.Perm.refl _
  | cons x xs ih =>
    rw [insertById]
    by_cases hle : m.id ≤ x.id
    · rw [if_pos hle]
    · rw [if_neg hle]
      exact (ih.cons x).trans (List.Perm.swap m x xs)

theorem sortById_perm (l : List Msg) : List.Perm (sortById l) l := by
  induction l with
  | nil => exact List.Perm.refl _
  | cons x xs ih =>
    rw [sortById]
    exact (insertById_perm x (sortById xs)).trans (ih.cons x)

theorem length_sortById (l : List Msg) : (sortById l).length = l.length :=
  (sortById_perm l).length_eq

/-! ## Characterizing `push` and sequences of pushes -/

theorem push_ok {st : Store} {q : String} {row : QueueRow}
    (h : lookupQueue st q = some row) (v : Json) :
    push st q v = .ok (nextId (st.messages.map Msg.id),
      { st with messages := st.messages ++
        [⟨nextId (st.messages.map Msg.id), row.id, v.dumps⟩] }) := by
  unfold push
  rw [h]

theorem foldr_max_append (L : List Nat) (x : Nat) (h : ∀ y ∈ L, y ≤ x) :
    (L ++ [x]).foldr max 0 = x := by
  induction L with
  | nil => simp
  | cons a as ih =>
    have ha := h a (by simp)
    have hrec := ih (fun y hy => h y (by simp [hy]))
    rw [List.cons_append, List.foldr_cons, hrec]
    omega

/-- The rows appended to the table by pushing `vs` one after the other when
    the largest id present is `base`: consecutive ids `base+1`, `base+2`, …,
    all bound to queue `qid`, with dumped payload texts. -/
def consecRows (qid : Nat) : Nat → List Json → List Msg
  | _, [] => []
  | base, v :: vs => ⟨base + 1, qid, v.dumps⟩ :: consecRows qid (base + 1) vs

/-- Pushing a list of payloads into one queue in order. -/
def pushAll (st : Store) (q : String) : List Json → Except DAOError Store
  | [] => .ok st
  | v :: vs =>
    match push st q v with
    | .error e => .error e
    | .ok (_, st1) => pushAll st1 q vs

theorem pushAll_ok {q : String} {row : QueueRow} :
    ∀ (vs : List Json) (st : Store), lookupQueue st q = some row →
      pushAll st q vs = .ok ⟨st.queues,
        st.messages ++ consecRows row.id ((st.messages.map Msg.id).foldr max 0) vs⟩ := by
  intro vs
  induction vs with
  | nil =>
    intro st h
    cases st
    simp [pushAll, consecRows]
  | cons v vs ih =>
    intro st h
    rw [pushAll, push_ok h v]
    dsimp only
    have h1 : lookupQueue { st with messages := st.messages ++
        [⟨nextId (st.messages.map Msg.id), row.id, v.dumps⟩] } q = some row := h
    rw [ih _ h1]
    have hm : ((st.messages ++
          [(⟨nextId (st.messages.map Msg.id), row.id, v.dumps⟩ : Msg)]).map Msg.id).foldr max 0
        = nextId (st.messages.map Msg.id) := by
      rw [List.map_append]
      refine foldr_max_append _ _ (fun y hy => ?_)
      dsimp only
      have := le_foldr_max _ y hy
      unfold nextId
      omega
    rw [hm]
    have hc : consecRows row.id ((st.messages.map Msg.id).foldr max 0) (v :: vs)
        = (⟨nextId (st.messages.map Msg.id), row.id, v.dumps⟩ : Msg) ::
            consecRows row.id (nextId (st.messages.map Msg.id)) vs := by
      rw [consecRows]
      unfold nextId
      rfl
    rw [hc, List.append_assoc, List.singleton_append]

theorem consecRows_queueId (qid : Nat) :
    ∀ base vs, ∀ m ∈ consecRows qid base vs, m.queueId = qid := by
  intro base vs
  induction vs generalizing base with
  | nil => intro m hm; cases hm
  | cons v vs ih =>
    intro m hm
    rcases List.mem_cons.mp hm with hm | hm
    · subst hm; rfl
    · exact ih (base + 1) m hm

theorem consecRows_head_id (qid base : Nat) (vs : List Json) :
    ∀ m ∈ (consecRows qid base vs).head?, m.id = base + 1 := by
  cases vs with
  | nil => intro m hm; cases hm
  | cons v vs => intro m hm; cases hm; rfl

theorem consecRows_ids_chain (qid : Nat) :
    ∀ base vs, List.Chain' (fun a b => a.id < b.id) (consecRows qid base vs) := by
  intro base vs
  induction vs generalizing base with
  | nil => exact List.chain'_nil
  | cons v vs ih =>
    rw [consecRows, List.chain'_cons']
    refine ⟨fun m hm => ?_, ih (base + 1)⟩
    have := consecRows_head_id qid (base + 1) vs m hm
    simp [this]

theorem consecRows_length (qid : Nat) :
    ∀ base vs, (consecRows qid base vs).length = vs.length := by
  intro base vs
  induction vs generalizing base with
  | nil => rfl
  | cons v vs ih => rw [consecRows, List.length_cons, ih (base + 1)]; rfl

theorem consecRows_messages (qid : Nat) :
    ∀ base vs, ((consecRows qid base vs).map
        (fun m => (⟨m.id, loads m.message⟩ : PopRow))).map PopRow.message
      = vs.map some := by
  intro base vs
  induction vs generalizing base with
  | nil => rfl
  | cons v vs ih =>
    rw [consecRows, List.map_cons, List.map_cons, ih (base + 1)]
    rw [List.map_cons]
    dsimp only
    rw [loads_dumps]

end QueuesDAO

/-! ## Claim C1: FIFO order -/

/-- C1: pushing payloads `v₁, …, vₖ` in order into an existing, empty queue
    and then popping `n = k` returns exactly those payloads in push order
    (oldest first, ascending ids — never LIFO), and `get` (peek) selects the
    same rows. -/
theorem c1_fifo_order (st : Store) (q : String) (row : QueueRow) (vs : List Json)
    (hq : QueuesDAO.lookupQueue st q = some row)
    (hempty : ∀ m ∈ st.messages, ¬ m.queueId = row.id) :
    ∃ st' rows st2,
      QueuesDAO.pushAll st q vs = .ok st' ∧
      QueuesDAO.pop st' q vs.length = .ok (rows, st2) ∧
      QueuesDAO.get st' q vs.length = .ok rows ∧
      rows.map PopRow.message = vs.map some ∧
      List.Chain' (fun a b => a < b) (rows.map PopRow.id) := by
  set M := (st.messages.map Msg.id).foldr max 0 with hM
  set C := QueuesDAO.consecRows row.id M vs with hC
  have hpush := QueuesDAO.pushAll_ok vs st hq
  have hlk : QueuesDAO.lookupQueue ⟨st.queues, st.messages ++ C⟩ q = some row := hq
  have hfilter : (st.messages ++ C).filter (fun m => m.queueId == row.id) = C := by
    rw [List.filter_append]
    have h1 : st.messages.filter (fun m => m.queueId == row.id) = [] :=
      List.filter_eq_nil_iff.mpr (fun m hm => by simp [hempty m hm])
    have h2 : C.filter (fun m => m.queueId == row.id) = C :=
      List.filter_eq_self.mpr (fun m hm => by
        simp [QueuesDAO.consecRows_queueId row.id M vs m hm])
    rw [h1, h2, List.nil_append]
  have hsort : QueuesDAO.sortById C = C :=
    QueuesDAO.sortById_eq_self ((QueuesDAO.consecRows_ids_chain row.id M vs).imp
      (fun _ _ hab => le_of_lt hab))
  have hget : QueuesDAO.getMessages ⟨st.queues, st.messages ++ C⟩ q vs.length = C := by
    unfold QueuesDAO.getMessages
    rw [hlk]
    dsimp only
    rw [hfilter, hsort, hC, ← QueuesDAO.consecRows_length row.id M vs, ← hC, List.take_length]
  have hsel : QueuesDAO.popSelect ⟨st.queues, st.messages ++ C⟩ q vs.length
      = (C.map Msg.id, C.map (fun m => (⟨m.id, loads m.message⟩ : PopRow))) := by
    unfold QueuesDAO.popSelect
    rw [hget]
  refine ⟨⟨st.queues, st.messages ++ C⟩,
    C.map (fun m => (⟨m.id, loads m.message⟩ : PopRow)),
    QueuesDAO.popDelete ⟨st.queues, st.messages ++ C⟩ (C.map Msg.id),
    hpush, ?_, ?_, ?_, ?_⟩
  · unfold QueuesDAO.pop QueuesDAO.check_queue
    rw [hlk]
    dsimp only
    rw [hsel]
  · unfold QueuesDAO.get QueuesDAO.check_queue
    rw [hlk]
    dsimp only
    rw [hsel]
  · exact QueuesDAO.consecRows_messages row.id M vs
  · have hmm : (C.map (fun m => (⟨m.id, loads m.message⟩ : PopRow))).map PopRow.id
        = C.map Msg.id := by
      rw [List.map_map]
      rfl
    rw [hmm]
    exact (List.chain'_map Msg.id).mpr (QueuesDAO.consecRows_ids_chain row.id M vs)

/-- C1 witness: two payloads pushed into the fresh store's empty `default`
    queue come back from `pop 2` in push order. -/
theorem c1_witness :
    ∃ st' rows st2,
      QueuesDAO.pushAll QueuesDAO.init_db "default" [Json.null, Json.bool true] = .ok st' ∧
      QueuesDAO.pop st' "default" 2 = .ok (rows, st2) ∧
      QueuesDAO.get st' "default" 2 = .ok rows ∧
      rows.map PopRow.message = [some Json.null, some (Json.bool true)] ∧
      List.Chain' (fun a b => a < b) (rows.map PopRow.id) :=
  c1_fifo_order QueuesDAO.init_db "default" ⟨1, "default"⟩ [Json.null, Json.bool true]
    rfl (by simp [QueuesDAO.init_db])

/-! ## Claim C7: payloads round-trip structurally -/

/-- Reading a whole queue: `get` with `n = count` returns every message of
    the queue, sorted by id, rendered through `json.loads`. -/
theorem get_full {st1 : Store} {q : String} {row : QueueRow}
    (hlk : QueuesDAO.lookupQueue st1 q = some row) :
    QueuesDAO.get st1 q (QueuesDAO.countMessages st1 q)
      = .ok ((QueuesDAO.sortById
          (st1.messages.filter (fun m => m.queueId == row.id))).map
            (fun m => (⟨m.id, loads m.message⟩ : PopRow))) := by
  unfold QueuesDAO.get QueuesDAO.check_queue QueuesDAO.popSelect QueuesDAO.getMessages
    QueuesDAO.countMessages
  rw [hlk]
  dsimp only
  rw [← QueuesDAO.length_sortById, List.take_length]

/-- C7: a payload accepted by `push` is later returned structurally
    identical by `get`/`pop` (both render rows the same way): among the rows
    of a full `get` of the queue, the pushed id carries exactly the
    submitted payload — the store stores `json.dumps` and returns
    `json.loads` of the stored text, which round-trips. -/
theorem c7_payload_roundtrip (st : Store) (q : String) (row : QueueRow) (v : Json)
    (i : Nat) (st' : Store)
    (hq : QueuesDAO.lookupQueue st q = some row)
    (hpush : QueuesDAO.push st q v = .ok (i, st')) :
    ∃ rows, QueuesDAO.get st' q (QueuesDAO.countMessages st' q) = .ok rows ∧
      ∃ rowR ∈ rows, rowR.id = i ∧ rowR.message = some v := by
  rw [QueuesDAO.push_ok hq v] at hpush
  injection hpush with h1
  injection h1 with hi hst
  subst hi
  subst hst
  refine ⟨_, get_full (show QueuesDAO.lookupQueue _ q = some row from hq), ?_⟩
  have hmem : (⟨QueuesDAO.nextId (st.messages.map Msg.id), row.id, v.dumps⟩ : Msg)
      ∈ QueuesDAO.sortById
        (({ st with messages := st.messages ++
            [⟨QueuesDAO.nextId (st.messages.map Msg.id), row.id, v.dumps⟩] } : Store).messages.filter
          (fun m => m.queueId == row.id)) := by
    rw [(QueuesDAO.sortById_perm _).mem_iff, List.mem_filter]
    refine ⟨List.mem_append_right _ (by simp), by simp⟩
  refine ⟨⟨QueuesDAO.nextId (st.messages.map Msg.id), loads v.dumps⟩,
    List.mem_map_of_mem _ hmem, rfl, ?_⟩
  dsimp only
  rw [loads_dumps]

/-- C7 witness: pushing the payload `{"a": 7}` into the fresh store's
    `default` queue and reading the queue back returns that payload
    structurally unchanged. -/
theorem c7_witness :
    ∃ rows,
      QueuesDAO.get
        ⟨[⟨1, "default"⟩],
          [⟨1, 1, (Json.obj (.cons ['a'] (Json.num 7) .nil)).dumps⟩]⟩
        "default"
        (QueuesDAO.countMessages
          ⟨[⟨1, "default"⟩],
            [⟨1, 1, (Json.obj (.cons ['a'] (Json.num 7) .nil)).dumps⟩]⟩ "default")
        = .ok rows ∧
      ∃ rowR ∈ rows, rowR.id = 1 ∧
        rowR.message = some (Json.obj (.cons ['a'] (Json.num 7) .nil)) :=
  c7_payload_roundtrip QueuesDAO.init_db "default" ⟨1, "default"⟩
    (Json.obj (.cons ['a'] (Json.num 7) .nil)) 1
    ⟨[⟨1, "default"⟩], [⟨1, 1, (Json.obj (.cons ['a'] (Json.num 7) .nil)).dumps⟩]⟩
    rfl rfl

/-! ## General characterizations of the store operations on an existing queue -/

namespace QueuesDAO

theorem pop_eq {st : Store} {q : String} {row : QueueRow}
    (hlk : lookupQueue st q = some row) (n : Nat) :
    pop st q n = .ok ((popSelect st q n).2, popDelete st (popSelect st q n).1) := by
  unfold pop check_queue
  rw [hlk]

theorem get_eq {st : Store} {q : String} {row : QueueRow}
    (hlk : lookupQueue st q = some row) (n : Nat) :
    get st q n = .ok (popSelect st q n).2 := by
  unfold get check_queue
  rw [hlk]

theorem getMessages_eq {st : Store} {q : String} {row : QueueRow}
    (hlk : lookupQueue st q = some row) (n : Nat) :
    getMessages st q n
      = (sortById (st.messages.filter (fun m => m.queueId == row.id))).take n := by
  unfold getMessages
  rw [hlk]

theorem countMessages_eq {st : Store} {q : String} {row : QueueRow}
    (hlk : lookupQueue st q = some row) :
    countMessages st q = (st.messages.filter (fun m => m.queueId == row.id)).length := by
  unfold countMessages
  rw [hlk]

theorem lookup_popDelete (st : Store) (ids : List Nat) (q : String) :
    lookupQueue (popDelete st ids) q = lookupQueue st q := by
  unfold popDelete lookupQueue
  split <;> rfl

theorem queues_popDelete (st : Store) (ids : List Nat) :
    (popDelete st ids).queues = st.queues := by
  unfold popDelete
  split <;> rfl

end QueuesDAO

/-! ## Claim C8: delete removes the queue and exactly its messages -/

theorem find?_name_filter (l : List QueueRow) (q q2 : String) (hne : ¬ q2 = q) :
    (l.filter (fun row => !(row.name == q))).find? (fun row => row.name == q2)
      = l.find? (fun row => row.name == q2) := by
  induction l with
  | nil => rfl
  | cons a as ih =>
    by_cases ha : a.name = q
    · have hbeq : (a.name == q) = true := by rw [ha]; exact beq_self_eq_true _
      have h2 : (a.name == q2) = false := by
        rw [ha]
        exact beq_false_of_ne (fun h => hne h.symm)
      rw [List.filter_cons_of_neg (by simp [hbeq]), ih, List.find?_cons, h2]
    · have hbeq : (a.name == q) = false := beq_false_of_ne ha
      rw [List.filter_cons_of_pos (by simp [hbeq]), List.find?_cons, List.find?_cons]
      cases hq2 : (a.name == q2) with
      | true => rfl
      | false => exact ih

/-- C8: deleting an existing queue removes the queue row and every one of
    its messages (exactly the rows bound to that queue's id are deleted, so
    no orphaned messages remain), while every other queue and its messages
    are left unchanged. -/
theorem c8_delete_removes_queue (st : Store) (q : String) (row : QueueRow)
    (hq : QueuesDAO.lookupQueue st q = some row)
    (hnd : (st.queues.map QueueRow.id).Nodup) :
    QueuesDAO.lookupQueue (QueuesDAO.delete st q) q = none ∧
    (∀ m ∈ (QueuesDAO.delete st q).messages, ¬ m.queueId = row.id) ∧
    (QueuesDAO.delete st q).messages
      = st.messages.filter (fun m => !(m.queueId == row.id)) ∧
    (∀ q2 row2, ¬ q2 = q → QueuesDAO.lookupQueue st q2 = some row2 →
      QueuesDAO.lookupQueue (QueuesDAO.delete st q) q2 = some row2 ∧
      (QueuesDAO.delete st q).messages.filter (fun m => m.queueId == row2.id)
        = st.messages.filter (fun m => m.queueId == row2.id)) := by
  have hdel : QueuesDAO.delete st q
      = ⟨st.queues.filter (fun r => !(r.name == q)),
         st.messages.filter (fun m => !(m.queueId == row.id))⟩ := by
    unfold QueuesDAO.delete QueuesDAO.deleteQueueMessages QueuesDAO.deleteQueueRow
    rw [hq]
  refine ⟨?_, ?_, ?_, ?_⟩
  · rw [hdel]
    unfold QueuesDAO.lookupQueue
    dsimp only
    refine List.find?_eq_none.mpr (fun r hr => ?_)
    have := (List.mem_filter.mp hr).2
    simpa using this
  · rw [hdel]
    intro m hm
    have := (List.mem_filter.mp hm).2
    simpa using this
  · rw [hdel]
  · intro q2 row2 hne hq2
    constructor
    · rw [hdel]
      unfold QueuesDAO.lookupQueue at hq2 ⊢
      dsimp only
      rw [find?_name_filter st.queues q q2 hne]
      exact hq2
    · rw [hdel]
      dsimp only
      rw [List.filter_filter]
      refine List.filter_congr (fun m hm => ?_)
      by_cases h2 : m.queueId = row2.id
      · have hrowname : row.name = q := by
          have := List.find?_some hq
          simpa using this
        have hrow2name : row2.name = q2 := by
          have := List.find?_some hq2
          simpa using this
        have hids : ¬ row2.id = row.id := by
          intro hcontra
          have heq : row2 = row :=
            List.inj_on_of_nodup_map hnd (List.mem_of_find?_eq_some hq2)
              (List.mem_of_find?_eq_some hq) hcontra
          apply hne
          rw [← hrow2name, heq, hrowname]
        simp [h2, hids]
      · simp [h2]

/-- C8 witness: in a store with queues `default` (id 1, one message) and
    `extra` (id 2, one message), deleting `default` removes its queue row
    and its message while `extra` and its message survive unchanged. -/
theorem c8_witness :
    QueuesDAO.lookupQueue
      (QueuesDAO.delete ⟨[⟨1, "default"⟩, ⟨2, "extra"⟩],
        [⟨1, 1, ['n', 'u', 'l', 'l']⟩, ⟨2, 2, ['t', 'r', 'u', 'e']⟩]⟩ "default")
      "default" = none ∧
    (QueuesDAO.delete ⟨[⟨1, "default"⟩, ⟨2, "extra"⟩],
        [⟨1, 1, ['n', 'u', 'l', 'l']⟩, ⟨2, 2, ['t', 'r', 'u', 'e']⟩]⟩ "default").messages
      = [⟨2, 2, ['t', 'r', 'u', 'e']⟩] ∧
    QueuesDAO.lookupQueue
      (QueuesDAO.delete ⟨[⟨1, "default"⟩, ⟨2, "extra"⟩],
        [⟨1, 1, ['n', 'u', 'l', 'l']⟩, ⟨2, 2, ['t', 'r', 'u', 'e']⟩]⟩ "default")
      "extra" = some ⟨2, "extra"⟩ :=
  have hc8 := c8_delete_removes_queue
    ⟨[⟨1, "default"⟩, ⟨2, "extra"⟩],
      [⟨1, 1, ['n', 'u', 'l', 'l']⟩, ⟨2, 2, ['t', 'r', 'u', 'e']⟩]⟩
    "default" ⟨1, "default"⟩ rfl (by decide)
  ⟨hc8.1, by rw [hc8.2.2.1]; rfl,
    (hc8.2.2.2 "extra" ⟨2, "extra"⟩ (by decide) rfl).1⟩

/-! ## Claim C4: pop/peek return exactly `min n m`; pop removes exactly those -/

/-- C4: on an existing queue holding `m` messages, `pop n` succeeds and
    returns exactly `min n m` rows; `get n` (peek) returns the same rows and
    does not touch the store; pop removes exactly the returned ids (every
    message whose id was returned is gone, every other message survives, so
    the queue count drops to `m - n`, i.e. to zero when `m ≤ n`); and
    `n = 0` returns an empty result without error and without change. -/
theorem c4_bounded_pop_peek (st : Store) (q : String) (row : QueueRow) (n : Nat)
    (hq : QueuesDAO.lookupQueue st q = some row)
    (hnd : (st.messages.map Msg.id).Nodup) :
    ∃ rows st',
      QueuesDAO.pop st q n = .ok (rows, st') ∧
      QueuesDAO.get st q n = .ok rows ∧
      rows.length = min n (QueuesDAO.countMessages st q) ∧
      st'.queues = st.queues ∧
      QueuesDAO.countMessages st' q = QueuesDAO.countMessages st q - n ∧
      (∀ m ∈ st.messages, m.id ∈ rows.map PopRow.id → ¬ m ∈ st'.messages) ∧
      (∀ m ∈ st.messages, ¬ m.id ∈ rows.map PopRow.id → m ∈ st'.messages) ∧
      (n = 0 → rows = [] ∧ st' = st) := by
  classical
  set qm := st.messages.filter (fun m => m.queueId == row.id) with hqm
  set S := QueuesDAO.sortById qm with hS
  set G := S.take n with hG
  have hSlen : S.length = qm.length := by
    rw [hS]
    exact QueuesDAO.length_sortById qm
  have hsel : QueuesDAO.popSelect st q n
      = (G.map Msg.id, G.map (fun m => (⟨m.id, loads m.message⟩ : PopRow))) := by
    unfold QueuesDAO.popSelect
    rw [QueuesDAO.getMessages_eq hq n]
  set ids := G.map Msg.id with hids
  set rows := G.map (fun m => (⟨m.id, loads m.message⟩ : PopRow)) with hrows
  have hcount : QueuesDAO.countMessages st q = qm.length := QueuesDAO.countMessages_eq hq
  have hrowsid : rows.map PopRow.id = ids := by
    rw [hrows, hids, List.map_map]
    rfl
  have hndS : (S.map Msg.id).Nodup := by
    have h1 : (qm.map Msg.id).Sublist (st.messages.map Msg.id) :=
      (List.filter_sublist _).map Msg.id
    have h2 : (qm.map Msg.id).Nodup := h1.nodup hnd
    exact ((QueuesDAO.sortById_perm qm).map Msg.id).nodup_iff.mpr h2
  refine ⟨rows, QueuesDAO.popDelete st ids, ?_, ?_, ?_, ?_, ?_, ?_, ?_, ?_⟩
  · rw [QueuesDAO.pop_eq hq n, hsel]
  · rw [QueuesDAO.get_eq hq n, hsel]
  · rw [hrows, List.length_map, hG, List.length_take, hSlen, hcount]
  · exact QueuesDAO.queues_popDelete st ids
  · have hlk2 : QueuesDAO.lookupQueue (QueuesDAO.popDelete st ids) q = some row := by
      rw [QueuesDAO.lookup_popDelete]
      exact hq
    rw [QueuesDAO.countMessages_eq hlk2, hcount]
    by_cases hempty : ids.isEmpty
    · have hpd : QueuesDAO.popDelete st ids = st := by
        unfold QueuesDAO.popDelete
        rw [if_pos hempty]
      have hidsnil : ids = [] := List.isEmpty_iff.mp hempty
      have hGnil : G = [] := by
        have := hidsnil
        rw [hids] at this
        exact List.map_eq_nil_iff.mp this
      have hcase : n = 0 ∨ S = [] := by
        have := hGnil
        rw [hG] at this
        exact List.take_eq_nil_iff.mp this
      rw [hpd, ← hqm]
      rcases hcase with hcase | hcase
      · omega
      · have : qm.length = 0 := by
          rw [← hSlen, hcase]
          rfl
        omega
    · have hpd : QueuesDAO.popDelete st ids
          = { st with messages := st.messages.filter (fun m => !(ids.contains m.id)) } := by
        unfold QueuesDAO.popDelete
        rw [if_neg hempty]
      rw [hpd]
      dsimp only
      rw [List.filter_filter]
      have hcomb : st.messages.filter (fun m => (m.queueId == row.id) && !(ids.contains m.id))
          = qm.filter (fun m => !(ids.contains m.id)) := by
        rw [hqm, List.filter_filter]
        exact List.filter_congr (fun m hm => Bool.and_comm _ _)
      rw [hcomb]
      have hlenf : (qm.filter (fun m => !(ids.contains m.id))).length
          = (S.filter (fun m => !(ids.contains m.id))).length := by
        rw [← List.countP_eq_length_filter, ← List.countP_eq_length_filter, hS]
        exact ((QueuesDAO.sortById_perm qm).countP_eq _).symm
      have hsplit : S = G ++ S.drop n := by
        rw [hG]
        exact (List.take_append_drop n S).symm
      have hndGD : ((G.map Msg.id) ++ ((S.drop n).map Msg.id)).Nodup := by
        rw [← List.map_append, ← hsplit]
        exact hndS
      have hdisj := (List.nodup_append.mp hndGD).2.2
      have hfG : G.filter (fun m => !(ids.contains m.id)) = [] := by
        refine List.filter_eq_nil_iff.mpr (fun m hm => ?_)
        have hmid : m.id ∈ ids := by
          rw [hids]
          exact List.mem_map_of_mem _ hm
        simpa using hmid
      have hfD : (S.drop n).filter (fun m => !(ids.contains m.id)) = S.drop n := by
        refine List.filter_eq_self.mpr (fun m hm => ?_)
        have hmD : m.id ∈ (S.drop n).map Msg.id := List.mem_map_of_mem _ hm
        have hnotin : ¬ m.id ∈ ids := by
          intro hcon
          rw [hids] at hcon
          exact hdisj hcon hmD
        cases hcc : List.contains ids m.id with
        | false => simp
        | true => exact absurd (List.elem_iff.mp hcc) hnotin
      have hSfilter : S.filter (fun m => !(ids.contains m.id)) = S.drop n := by
        conv_lhs => rw [hsplit]
        rw [List.filter_append, hfG, hfD, List.nil_append]
      rw [hlenf, hSfilter, List.length_drop, hSlen]
  · intro m hm hmid
    rw [hrowsid] at hmid
    by_cases hempty : ids.isEmpty
    · rw [List.isEmpty_iff.mp hempty] at hmid
      cases hmid
    · have hpd : QueuesDAO.popDelete st ids
          = { st with messages := st.messages.filter (fun m => !(ids.contains m.id)) } := by
        unfold QueuesDAO.popDelete
        rw [if_neg hempty]
      rw [hpd]
      intro hmem
      have h2 := (List.mem_filter.mp hmem).2
      have hc : ids.contains m.id = true := List.elem_iff.mpr hmid
      rw [hc] at h2
      cases h2
  · intro m hm hnid
    rw [hrowsid] at hnid
    by_cases hempty : ids.isEmpty
    · have hpd : QueuesDAO.popDelete st ids = st := by
        unfold QueuesDAO.popDelete
        rw [if_pos hempty]
      rw [hpd]
      exact hm
    · have hpd : QueuesDAO.popDelete st ids
          = { st with messages := st.messages.filter (fun m => !(ids.contains m.id)) } := by
        unfold QueuesDAO.popDelete
        rw [if_neg hempty]
      rw [hpd]
      refine List.mem_filter.mpr ⟨hm, ?_⟩
      cases hcc : List.contains ids m.id with
      | false => simp
      | true => exact absurd (List.elem_iff.mp hcc) hnid
  · intro h0
    subst h0
    have hGnil : G = [] := by
      rw [hG]
      exact List.take_zero S
    constructor
    · rw [hrows, hGnil]
      rfl
    · have hidsnil : ids = [] := by
        rw [hids, hGnil]
        rfl
      unfold QueuesDAO.popDelete
      rw [hidsnil]
      rfl

/-- C4 witness: with one message in the `default` queue, `pop 5` returns
    exactly one row, peek returns the same row, the queue is empty
    afterwards, and the removed message is exactly the returned one. -/
theorem c4_witness :
    ∃ rows st',
      QueuesDAO.pop ⟨[⟨1, "default"⟩], [⟨1, 1, ['n', 'u', 'l', 'l']⟩]⟩ "default" 5
        = .ok (rows, st') ∧
      QueuesDAO.get ⟨[⟨1, "default"⟩], [⟨1, 1, ['n', 'u', 'l', 'l']⟩]⟩ "default" 5
        = .ok rows ∧
      rows.length = min 5 (QueuesDAO.countMessages
        ⟨[⟨1, "default"⟩], [⟨1, 1, ['n', 'u', 'l', 'l']⟩]⟩ "default") ∧
      st'.queues = (⟨[⟨1, "default"⟩], [⟨1, 1, ['n', 'u', 'l', 'l']⟩]⟩ : Store).queues ∧
      QueuesDAO.countMessages st' "default"
        = QueuesDAO.countMessages
            ⟨[⟨1, "default"⟩], [⟨1, 1, ['n', 'u', 'l', 'l']⟩]⟩ "default" - 5 ∧
      (∀ m ∈ (⟨[⟨1, "default"⟩], [⟨1, 1, ['n', 'u', 'l', 'l']⟩]⟩ : Store).messages,
        m.id ∈ rows.map PopRow.id → ¬ m ∈ st'.messages) ∧
      (∀ m ∈ (⟨[⟨1, "default"⟩], [⟨1, 1, ['n', 'u', 'l', 'l']⟩]⟩ : Store).messages,
        ¬ m.id ∈ rows.map PopRow.id → m ∈ st'.messages) ∧
      (5 = 0 → rows = [] ∧ st' = ⟨[⟨1, "default"⟩], [⟨1, 1, ['n', 'u', 'l', 'l']⟩]⟩) :=
  c4_bounded_pop_peek ⟨[⟨1, "default"⟩], [⟨1, 1, ['n', 'u', 'l', 'l']⟩]⟩ "default"
    ⟨1, "default"⟩ 5 rfl (by decide)
